import Mathlib

/-!
Verification development for the astrological computation engine of the
`ezoteric_bot` repository.

The Python sources under `app/shared/astro/` are shallowly embedded:
Python floats become rationals (`ℚ`), dates become integers (`ℤ`, a day
number in a proleptic-Gregorian day count), Python dicts become
association lists in insertion order, and external collaborators (the
flatlib ephemeris provider, `math.cos`, `random.choice`, the JSON
template store) become explicit oracle parameters.  Each embedded
definition keeps the name of the Python function or constant it embeds.
-/

namespace Ezo

/-- Integer floor of a rational, computed from the reduced fraction so
that kernel reduction (`decide`) can evaluate it. -/
def qfloor (x : ℚ) : ℤ := x.num / (x.den : ℤ)

theorem qfloor_eq_floor (x : ℚ) : qfloor x = ⌊x⌋ := Rat.floor_def.symm

/-- Python `x % 360.0` on rationals: the representative of `x` modulo 360
lying in `[0, 360)` (Python's float `%` has the sign of the divisor). -/
def qmod360 (x : ℚ) : ℚ := x - 360 * qfloor (x / 360)

/-- Python `round` to the nearest integer, ties to even (banker's
rounding), on rationals. -/
def roundHalfEven (x : ℚ) : ℤ :=
  if x - qfloor x < 1/2 then qfloor x
  else if 1/2 < x - qfloor x then qfloor x + 1
  else if qfloor x % 2 = 0 then qfloor x else qfloor x + 1

/-- Python `round(x, 2)`: banker's rounding to two decimal places. -/
def pyRound2 (x : ℚ) : ℚ := (roundHalfEven (x * 100) : ℚ) / 100

/-- `ephemeris.PlanetPosition`: name, geocentric longitude in degrees,
latitude, daily speed in degrees/day, retrograde flag. -/
structure PlanetPosition where
  name : String
  lon : ℚ
  lat : ℚ
  speed : ℚ
  retrograde : Bool
deriving Repr, DecidableEq

/-- `ephemeris.HouseCusp`: house index and cusp longitude. -/
structure HouseCusp where
  house : ℤ
  lon : ℚ
deriving Repr, DecidableEq

/-- `ephemeris.ChartSnapshot`: timestamp (as a day number at some fixed
time), chart type, location, objects keyed by planet code (dict in
insertion order), house cusps keyed by house index. -/
structure ChartSnapshot where
  timestamp : ℤ
  chart_type : String
  location : ℚ × ℚ
  objects : List (String × PlanetPosition)
  houses : List HouseCusp
deriving Repr, DecidableEq

/-- `transits.ASPECTS`: aspect name ↦ (exact angle, base orb). -/
def ASPECTS : List (String × ℚ × ℚ) :=
  [("conjunction", (0, 6)), ("sextile", (60, 4)), ("square", (90, 5)),
   ("trine", (120, 5)), ("opposition", (180, 6))]

/-- `transits.PLANET_WEIGHTS`. -/
def PLANET_WEIGHTS : List (String × ℚ) :=
  [("Sun", 1), ("Moon", 1), ("Mercury", 4/5), ("Venus", 4/5),
   ("Mars", 9/10), ("Jupiter", 7/10), ("Saturn", 7/10),
   ("Uranus", 3/5), ("Neptune", 3/5), ("Pluto", 3/5)]

/-- `transits.TransitAspect`. -/
structure TransitAspect where
  transit_planet : String
  natal_planet : String
  aspect : String
  orb : ℚ
  exact : Bool
  applying : Bool
  weight : ℚ
  transit_house : Option ℤ
  natal_house : Option ℤ
  transit_position : PlanetPosition
  natal_position : PlanetPosition
deriving Repr, DecidableEq

/-- `transits.angular_distance`. -/
def angular_distance (lon1 lon2 : ℚ) : ℚ :=
  let diff := qmod360 |lon1 - lon2|
  if diff > 180 then 360 - diff else diff

/-- `transits._calculate_orb`. -/
def calculate_orb (target_angle actual_angle : ℚ) : ℚ :=
  |target_angle - actual_angle|

/-- The scan loop inside `transits._determine_house`: walks the
house-index-sorted `(id, lon % 360)` pairs; every pair is tested against
the next one's longitude (wrap branch when descending), and the final
pair is tested against the first longitude with the unconditional wrap
test.  Returns the first house whose interval contains `x`. -/
def houseScan (x first : ℚ) : List (ℤ × ℚ) → Option ℤ
  | [] => none
  | [(i, l)] => if l ≤ x ∨ x < first then some i else none
  | (i, l) :: (j, m) :: rest =>
    if (if l ≤ m then l ≤ x ∧ x < m else l ≤ x ∨ x < m) then some i
    else houseScan x first ((j, m) :: rest)

/-- `transits._determine_house`: `None` on an empty cusp map, otherwise
the scan above, falling back to the highest house index when no interval
matched. -/
def determine_house (longitude : ℚ) (houses : List HouseCusp) : Option ℤ :=
  match houses with
  | [] => none
  | _ =>
    let sorted := houses.mergeSort (fun a b => a.house ≤ b.house)
    let pairs := sorted.map (fun c => (c.house, qmod360 c.lon))
    match houseScan longitude ((pairs.head?.map Prod.snd).getD 0) pairs with
    | some h => some h
    | none => pairs.getLast?.map Prod.fst

/-- `transits._is_applying`. -/
def is_applying (transit natal : PlanetPosition) (target_angle : ℚ) : Bool :=
  let relative := qmod360 (transit.lon - natal.lon)
  let diff := relative - target_angle
  let diff := if diff > 180 then diff - 360 else diff
  let diff := if diff < -180 then diff + 360 else diff
  if diff > 0 then transit.speed < 0 else transit.speed > 0

/-- `transits._aspect_weight`. -/
def aspect_weight (transit_planet natal_planet aspect : String) (orb : ℚ) : ℚ :=
  let base := ((PLANET_WEIGHTS.lookup transit_planet).getD (1/2)) +
    ((PLANET_WEIGHTS.lookup natal_planet).getD (1/2))
  let aspect_bonus :=
    (([("conjunction", (6/5 : ℚ)), ("square", 11/10), ("opposition", 11/10),
       ("trine", 9/10), ("sextile", 4/5)]).lookup aspect).getD (4/5)
  let orb_penalty := max (1/10) (1 - orb / max ((ASPECTS.lookup aspect).getD (0, 6)).2 1)
  base * aspect_bonus * orb_penalty

/-- The descending sort order used at the end of `find_transit_aspects`:
Python `sort(key=(weight, -orb), reverse=True)`, i.e. weight descending
with orb ascending as tiebreak, stable on full ties. -/
def aspectSortLe (a b : TransitAspect) : Bool :=
  b.weight < a.weight ∨ (b.weight = a.weight ∧ a.orb ≤ b.orb)

/-- `transits.find_transit_aspects` with the default arguments made
explicit (`aspects` defaults to `ASPECTS`, `include_planets` to the keys
of `transit.objects`). -/
def find_transit_aspects (natal transit : ChartSnapshot)
    (aspects : List (String × ℚ × ℚ)) (include_planets : List String)
    (max_orb_multiplier : ℚ) : List TransitAspect :=
  let results := include_planets.flatMap (fun transit_code =>
    match transit.objects.lookup transit_code with
    | none => []
    | some transit_obj =>
      let transit_house := determine_house (qmod360 transit_obj.lon) natal.houses
      natal.objects.flatMap (fun natal_entry =>
        let natal_code := natal_entry.1
        let natal_obj := natal_entry.2
        let angle := angular_distance transit_obj.lon natal_obj.lon
        aspects.filterMap (fun entry =>
          let aspect_name := entry.1
          let aspect_angle := entry.2.1
          let base_orb := entry.2.2
          let max_orb := base_orb * max_orb_multiplier
          let orb := calculate_orb aspect_angle angle
          if orb ≤ max_orb then
            some { transit_planet := transit_code
                   natal_planet := natal_code
                   aspect := aspect_name
                   orb := pyRound2 orb
                   exact := orb ≤ 1/10
                   applying := is_applying transit_obj natal_obj aspect_angle
                   weight := aspect_weight transit_code natal_code aspect_name orb
                   transit_house := transit_house
                   natal_house := determine_house (qmod360 natal_obj.lon) natal.houses
                   transit_position := transit_obj
                   natal_position := natal_obj }
          else none)))
  results.mergeSort aspectSortLe

/-- Default-argument form: `find_transit_aspects(natal, transit,
max_orb_multiplier=m)`. -/
def find_transit_aspects_default (natal transit : ChartSnapshot)
    (max_orb_multiplier : ℚ) : List TransitAspect :=
  find_transit_aspects natal transit ASPECTS (transit.objects.map Prod.fst)
    max_orb_multiplier

/-- Day number of a proleptic-Gregorian civil date (days since
1970-01-01, Howard Hinnant's `days_from_civil`); `datetime.date` values
are embedded as this count. -/
def daysFromCivil (y m d : ℤ) : ℤ :=
  let y' := if m ≤ 2 then y - 1 else y
  let era := (if 0 ≤ y' then y' else y' - 399) / 400
  let yoe := y' - era * 400
  let doy := (153 * (if 2 < m then m - 3 else m + 9) + 2) / 5 + d - 1
  let doe := yoe * 365 + yoe / 4 - yoe / 100 + doy
  era * 146097 + doe - 719468

/-- `retrograde.RetroPeriod`. -/
structure RetroPeriod where
  planet : String
  start : ℤ
  end? : Option ℤ
  pre_alert : ℤ
deriving Repr, DecidableEq

/-- `retrograde.RetroPeriod.contains`. -/
def RetroPeriod.containsDay (p : RetroPeriod) (target : ℤ) : Bool :=
  match p.end? with
  | none => decide (p.start ≤ target)
  | some e => decide (p.start ≤ target ∧ target ≤ e)

/-- Day `d` lies in the union of the day-ranges of the periods. -/
def coversDay (ps : List RetroPeriod) (d : ℤ) : Bool :=
  ps.any (fun p => p.containsDay d)

/-- The series walk inside `RetrogradeService._extract_periods`: state is
`(prev_status, current_start)`; a `false→true` step records the day as
the period start, a `true→false` step emits a period closed at the
previous day (defensively falling back to the first sampled day when no
start was recorded), and a series that is still `true` at the end emits
an open period (`end = None`). -/
def retroWalk (planet : String) (preAlertDays firstDay : ℤ) :
    Bool → Option ℤ → List (ℤ × Bool) → List RetroPeriod
  | prev, cur, [] =>
    if prev then
      match cur with
      | some c => [⟨planet, c, none, c - preAlertDays⟩]
      | none => []
    else []
  | prev, cur, (day, st) :: rest =>
    if prev = false ∧ st = true then
      retroWalk planet preAlertDays firstDay st (some day) rest
    else if prev = true ∧ st = false then
      let c := cur.getD firstDay
      ⟨planet, c, some (day - 1), c - preAlertDays⟩ ::
        retroWalk planet preAlertDays firstDay st none rest
    else
      retroWalk planet preAlertDays firstDay st cur rest

/-- `RetrogradeService._extract_periods` for one planet.  `pairs` is the
status series in ascending day order (as `_compute_statuses` produces
it, so Python's `sorted(statuses.keys())` is the identity); after the
walk, periods ending more than 30 days before `start_date` or starting
more than 60 days after `end_date` are dropped and the survivors are
sorted by start. -/
def extract_periods (planet : String) (preAlertDays : ℤ)
    (pairs : List (ℤ × Bool)) (start_date end_date : ℤ) : List RetroPeriod :=
  match pairs with
  | [] => []
  | (d0, s0) :: rest =>
    let periods := retroWalk planet preAlertDays d0 s0
      (if s0 then some d0 else none) rest
    let filtered := periods.filter (fun p =>
      !(match p.end? with
        | some e => decide (e < start_date - 30)
        | none => false) &&
      !(decide (end_date + 60 < p.start)))
    filtered.mergeSort (fun a b => a.start ≤ b.start)

/-- The day-by-day sampling loop of
`RetrogradeService._compute_statuses`, for one planet: `n` consecutive
days starting at `a`, each paired with the ephemeris oracle's retrograde
flag. -/
def pairsFrom (retro : ℤ → Bool) (a : ℤ) : ℕ → List (ℤ × Bool)
  | 0 => []
  | n + 1 => (a, retro a) :: pairsFrom retro (a + 1) n

/-- `RetrogradeService._compute_statuses` restricted to one planet: the
ephemeris provider is the oracle `retro`, sampled once per day at the
fixed reference time for each day of `a..b`. -/
def statusRange (retro : ℤ → Bool) (a b : ℤ) : List (ℤ × Bool) :=
  pairsFrom retro a (b + 1 - a).toNat

/-- `RetrogradeService.get_periods` for one planet: statuses are sampled
over the padded analysis window `[start-30, end+60]` and fed to
`extract_periods`.  `pre_alert_days` is 3 in the service constructor. -/
def get_periods_for (planet : String) (preAlertDays : ℤ) (retro : ℤ → Bool)
    (start_date end_date : ℤ) : List RetroPeriod :=
  extract_periods planet preAlertDays
    (statusRange retro (start_date - 30) (end_date + 60)) start_date end_date

/-- Modelled from the spec: `lunar_planner_data.PhaseAdvice` (the module
`lunar_planner_data` is not in the provided sources): a per-phase advice
entry with score 0–3, a rating label, text, and an optional caution. -/
structure PhaseAdvice where
  score : ℤ
  rating : String
  text : String
  caution : Option String := none
deriving Repr, DecidableEq

/-- Modelled from the spec: `lunar_planner_data.PhaseDefinition`; the
engine consults only its string `key` (e.g. `"new_moon"`), so the other
display fields are omitted.  `PHASES` maps each key to the definition
carrying that key. -/
structure PhaseDefinition where
  key : String
deriving Repr, DecidableEq

/-- Modelled from the spec: `lunar_planner_data.SignDefinition`; the 12
zodiac sign definitions are consulted only by position, so each is
embedded as its index. -/
structure SignDefinition where
  index : ℕ
deriving Repr, DecidableEq

/-- Modelled from the spec: `lunar_planner_data.SIGN_DEFINITIONS`, the
list of 12 sign definitions indexed `0..11`. -/
def SIGN_DEFINITIONS : List SignDefinition := (List.range 12).map SignDefinition.mk

/-- Modelled from the spec: `lunar_planner_data.RATING_SCORES`; scores
are 0–3 keyed by rating label, and the embedded code consults only the
`"neutral"` entry. -/
def RATING_SCORES : List (String × ℤ) :=
  [("great", 3), ("good", 2), ("neutral", 1), ("avoid", 0)]

/-- Modelled from the spec: `lunar_planner_data.ActionDefinition`; the
fields the embedded engine reads: slug, summary, category tags, the
premium-only flag and the per-phase advice table. -/
structure ActionDefinition where
  slug : String
  summary : String
  categories : List String
  premium_only : Bool
  phase_advice : List (String × PhaseAdvice)
deriving Repr, DecidableEq

/-- `lunar_planner.ActionSuggestion`. -/
structure ActionSuggestion where
  action : ActionDefinition
  advice : PhaseAdvice
deriving Repr, DecidableEq

/-- `lunar_planner.DayContext`. -/
structure DayContext where
  date : ℤ
  phase : PhaseDefinition
  moon_sign : SignDefinition
  illumination : ℤ
  angle : ℚ
  natal_house : Option ℤ := none
deriving Repr, DecidableEq

/-- `LunarPlannerService._phase_from_angle`: the cascade of angle
thresholds choosing one of the 8 named phase buckets. -/
def phase_from_angle (angle : ℚ) : PhaseDefinition :=
  if angle < 20 ∨ 340 ≤ angle then ⟨"new_moon"⟩
  else if angle < 70 then ⟨"waxing_crescent"⟩
  else if angle < 110 then ⟨"first_quarter"⟩
  else if angle < 160 then ⟨"waxing_gibbous"⟩
  else if angle < 200 then ⟨"full_moon"⟩
  else if angle < 250 then ⟨"waning_gibbous"⟩
  else if angle < 300 then ⟨"last_quarter"⟩
  else ⟨"waning_crescent"⟩

/-- The sort key of `LunarPlannerService.select_actions`:
`(advice.score, -len(action.categories), action.slug)`. -/
def actionKey (s : ActionSuggestion) : ℤ × ℤ × String :=
  (s.advice.score, -(s.action.categories.length : ℤ), s.action.slug)

/-- Strict lexicographic order on the sort key triple (Python tuple
comparison, strings by code point). -/
def keyLt (x y : ℤ × ℤ × String) : Prop :=
  x.1 < y.1 ∨ (x.1 = y.1 ∧
    (x.2.1 < y.2.1 ∨ (x.2.1 = y.2.1 ∧ x.2.2 < y.2.2)))

instance (x y : ℤ × ℤ × String) : Decidable (keyLt x y) := by
  unfold keyLt; infer_instance

/-- Python `candidates.sort(key=actionKey, reverse=True)` comparator: a
stable sort placing larger keys first, ties keeping list order. -/
def selectSortLe (a b : ActionSuggestion) : Bool :=
  decide (keyLt (actionKey b) (actionKey a) ∨ actionKey b = actionKey a)

/-- The candidate-building loop of `LunarPlannerService.select_actions`:
free users drop premium-only actions, and each remaining action gets its
advice for the day's phase, defaulting to a neutral-score advice built
from the action's summary when the table has no entry. -/
def candidate_suggestions (actions : List ActionDefinition)
    (day : DayContext) (is_premium : Bool) : List ActionSuggestion :=
  actions.filterMap (fun action =>
    if action.premium_only = true ∧ is_premium = false then none
    else
      some { action := action
             advice := (action.phase_advice.lookup day.phase.key).getD
               { score := (RATING_SCORES.lookup "neutral").getD 1
                 rating := "neutral"
                 text := action.summary } })

/-- `LunarPlannerService.select_actions` with the module-level `ACTIONS`
catalog made an explicit argument: the candidates are stably sorted
placing larger `(score, -category count, slug)` keys first (Python
`reverse=True`), and the minimum-score threshold is relaxed
`≥2 → ≥1 → none` until a candidate survives, truncating to `limit`. -/
def select_actions (actions : List ActionDefinition) (day : DayContext)
    (is_premium : Bool) (limit : ℕ) : List ActionSuggestion :=
  let candidates := candidate_suggestions actions day is_premium
  let sortedC := candidates.mergeSort selectSortLe
  let preferred := sortedC.filter (fun item => decide (2 ≤ item.advice.score))
  let preferred := if preferred.isEmpty then
    sortedC.filter (fun item => decide (1 ≤ item.advice.score)) else preferred
  let preferred := if preferred.isEmpty then sortedC.take limit else preferred
  preferred.take limit

/-- The ordering exactly as the claim words it: score descending, then
category-count DESCENDING, then slug ASCENDING (as a stable-sort
comparator). -/
def claimedSortLe (a b : ActionSuggestion) : Bool :=
  decide (b.advice.score < a.advice.score ∨ (b.advice.score = a.advice.score ∧
    (b.action.categories.length < a.action.categories.length ∨
     (b.action.categories.length = a.action.categories.length ∧
      a.action.slug ≤ b.action.slug))))

/-- The pipeline of the claim: identical to `select_actions` except that
the candidate list is ordered by the claim's comparator. -/
def select_actions_claimed (actions : List ActionDefinition)
    (day : DayContext) (is_premium : Bool) (limit : ℕ) :
    List ActionSuggestion :=
  let candidates := candidate_suggestions actions day is_premium
  let sortedC := candidates.mergeSort claimedSortLe
  let preferred := sortedC.filter (fun item => decide (2 ≤ item.advice.score))
  let preferred := if preferred.isEmpty then
    sortedC.filter (fun item => decide (1 ≤ item.advice.score)) else preferred
  let preferred := if preferred.isEmpty then sortedC.take limit else preferred
  preferred.take limit

/-- The lunar day-context cache: Python dict keyed by `(date, timezone)`
in insertion order. -/
abbrev DayCache := List ((ℤ × String) × DayContext)

/-- `LunarPlannerService._prune_cache`: when the cache has grown past
`cache_size`, keep only the entries with the most recent dates — the
keys are stably sorted by date and the last `ceil(cache_size / 2)` of
them survive (Python `keys[-self._cache_size // 2:]`; when
`cache_size = 0` the slice `keys[0:]` keeps everything). -/
def prune_cache (cache_size : ℕ) (cache : DayCache) : DayCache :=
  if cache.length > cache_size then
    let keys := cache.map Prod.fst
    let sortedKeys := keys.mergeSort (fun a b => a.1 ≤ b.1)
    let keepCount := (cache_size + 1) / 2
    let keep := if keepCount = 0 then sortedKeys
      else sortedKeys.drop (sortedKeys.length - keepCount)
    keep.filterMap (fun k => (cache.lookup k).map (fun v => (k, v)))
  else cache

/-- The external collaborators of the lunar planner: the ephemeris
provider's Sun/Moon longitudes for local noon of a `(date, timezone)`
pair, and `math.cos` composed with `math.radians` (degrees in,
cosine out). -/
structure LunarEnv where
  sun_lon : ℤ → String → ℚ
  moon_lon : ℤ → String → ℚ
  cosDeg : ℚ → ℚ

/-- `LunarPlannerService._get_moon_natal_house`. -/
def get_moon_natal_house (env : LunarEnv) (target_date : ℤ) (tz : String)
    (natal : ChartSnapshot) : Option ℤ :=
  if natal.houses.isEmpty then none
  else determine_house (qmod360 (env.moon_lon target_date tz)) natal.houses

/-- `LunarPlannerService._compute_day`, state passed explicitly: returns
the day context together with the cache after the call.  On a cache hit
whose entry lacks house enrichment while a natal chart is supplied, the
returned context is recomputed with the Moon's natal house (when that
house is truthy) but the cache itself is returned unchanged; a miss
computes the context, stores it, and prunes. -/
def compute_day (env : LunarEnv) (cache_size : ℕ) (cache : DayCache)
    (target_date : ℤ) (tz : String) (natal_chart : Option ChartSnapshot) :
    DayContext × DayCache :=
  match cache.lookup (target_date, tz) with
  | some cached =>
    match natal_chart with
    | some natal =>
      if cached.natal_house = none then
        match get_moon_natal_house env target_date tz natal with
        | some h =>
          if h ≠ 0 then ({ cached with natal_house := some h }, cache)
          else (cached, cache)
        | none => (cached, cache)
      else (cached, cache)
    | none => (cached, cache)
  | none =>
    let sun := env.sun_lon target_date tz
    let moon := env.moon_lon target_date tz
    let angle := qmod360 (moon - sun)
    let illumination := roundHalfEven ((1 - env.cosDeg angle) * 50)
    let sign_index := (qfloor (moon / 30) % 12).toNat
    let result : DayContext :=
      { date := target_date
        phase := phase_from_angle angle
        moon_sign := (SIGN_DEFINITIONS.get? sign_index).getD ⟨0⟩
        illumination := min (max illumination 0) 100
        angle := angle
        natal_house := natal_chart.bind (fun natal =>
          determine_house (qmod360 moon) natal.houses) }
    (result, prune_cache cache_size (cache ++ [((target_date, tz), result)]))

/-- `forecast.ForecastResult`. -/
structure ForecastResult where
  user_id : ℤ
  target_date : ℤ
  natal_chart : Option ChartSnapshot
  transit_chart : Option ChartSnapshot
  aspects : List TransitAspect
  missing_fields : List String
deriving Repr, DecidableEq

/-- `ForecastResult.ok`. -/
def ForecastResult.ok (r : ForecastResult) : Bool :=
  r.missing_fields.isEmpty && r.natal_chart.isSome && r.transit_chart.isSome

/-- A user birth profile as `DailyTransitService.generate` reads it:
each field is absent (`None`) or present. -/
structure Profile where
  birth_date : Option String := none
  birth_time : Option String := none
  timezone : Option String := none
  lat : Option ℚ := none
  lon : Option ℚ := none
deriving Repr, DecidableEq

/-- A naive `datetime.datetime` down to minutes (seconds and
microseconds are always zeroed by the embedded code paths). -/
structure NaiveDateTime where
  year : ℤ
  month : ℤ
  day : ℤ
  hour : ℤ
  minute : ℤ
deriving Repr, DecidableEq

/-- Gregorian leap-year test, as `datetime` validates dates. -/
def isLeapYear (y : ℤ) : Bool := (y % 4 = 0 ∧ y % 100 ≠ 0) ∨ y % 400 = 0

/-- Days in a month, as `datetime` validates dates. -/
def daysInMonth (y m : ℤ) : ℤ :=
  if m = 2 then (if isLeapYear y then 29 else 28)
  else if m = 4 ∨ m = 6 ∨ m = 9 ∨ m = 11 then 30 else 31

/-- Validity of a civil date (`datetime.datetime(y, m, d, ...)` raises
outside these bounds, which the caller turns into `None`). -/
def validDate (y m d : ℤ) : Bool :=
  1 ≤ m ∧ m ≤ 12 ∧ 1 ≤ d ∧ d ≤ daysInMonth y m

/-- `DailyTransitService._parse_time`: the first two `:`-separated
fields as integers, defaulting to `(12, 0)` on any parse failure, then
clamped to a valid wall-clock time. -/
def parse_time (time_str : String) : ℤ × ℤ :=
  let parts := ((time_str.splitOn ":").take 2).map String.toInt?
  let hm : ℤ × ℤ :=
    match parts with
    | [some h, some m] => (h, m)
    | [some h] => (h, 0)
    | _ => (12, 0)
  (max 0 (min hm.1 23), max 0 (min hm.2 59))

/-- `DailyTransitService._parse_datetime`: an ISO `YYYY-MM-DD` date (or
a full ISO timestamp, recognised by a `"T"`, whose date part is kept)
combined with the parsed time; any failure yields `None`. -/
def parse_datetime (date_str time_str : String) : Option NaiveDateTime :=
  let hm := parse_time time_str
  let fromYMD := fun (s : String) =>
    match (s.splitOn "-").map String.toInt? with
    | [some y, some m, some d] =>
      if validDate y m d then some (⟨y, m, d, hm.1, hm.2⟩ : NaiveDateTime)
      else none
    | _ => none
  if date_str.toList.contains 'T' then
    match date_str.splitOn "T" with
    | [d, _] => fromYMD d
    | _ => none
  else fromYMD date_str

/-- The external collaborators of `DailyTransitService`: the ephemeris
chart builders and the current date (`date.today()`).  The transit chart
is built for local noon of the given day number, reusing the natal
snapshot's location. -/
structure ForecastEnv where
  build_chart : NaiveDateTime → String → ℚ → ℚ → String → ChartSnapshot
  get_transit_chart : ChartSnapshot → ℤ → String → ChartSnapshot
  today : ℤ

/-- `DailyTransitService.generate` (constructor defaults:
`top_aspects = 6`, `aspect_multiplier = 1`).  Missing birth data fields
are collected in order `birth_date, timezone, lat, lon` and
short-circuit to a chartless result; an unparseable birth date
short-circuits to `missing_fields = ["birth_date"]`; otherwise the natal
and transit charts are built, aspects found and truncated to the top
`top_aspects` (when nonzero). -/
def generate (env : ForecastEnv) (top_aspects : ℕ) (aspect_multiplier : ℚ)
    (profile : Profile) (user_id : ℤ) (target_date : Option ℤ) :
    ForecastResult :=
  let birth_time := match profile.birth_time with
    | some t => if t = "" then "12:00" else t
    | none => "12:00"
  let timezone_name := match profile.timezone with
    | some t => if t = "" then "UTC" else t
    | none => "UTC"
  let birthDateFalsy := match profile.birth_date with
    | none => true
    | some s => s = ""
  let missing : List String :=
    (if birthDateFalsy then ["birth_date"] else []) ++
    (if profile.timezone = none then ["timezone"] else []) ++
    (if profile.lat = none then ["lat"] else []) ++
    (if profile.lon = none then ["lon"] else [])
  if missing ≠ [] then
    { user_id := user_id, target_date := target_date.getD env.today
      natal_chart := none, transit_chart := none, aspects := []
      missing_fields := missing }
  else
    match parse_datetime (profile.birth_date.getD "") birth_time with
    | none =>
      { user_id := user_id, target_date := target_date.getD env.today
        natal_chart := none, transit_chart := none, aspects := []
        missing_fields := ["birth_date"] }
    | some birth_dt =>
      let td := target_date.getD env.today
      let natal := env.build_chart birth_dt timezone_name
        (profile.lat.getD 0) (profile.lon.getD 0) "natal"
      let transit := env.get_transit_chart natal td timezone_name
      let aspects := find_transit_aspects_default natal transit aspect_multiplier
      let aspects := if top_aspects ≠ 0 then aspects.take top_aspects else aspects
      { user_id := user_id, target_date := td
        natal_chart := some natal, transit_chart := some transit
        aspects := aspects, missing_fields := [] }

/-- `interpretation.RenderedAspect`. -/
structure RenderedAspect where
  title : String
  text : String
  advice : String
  transit_house_note : Option String := none
  natal_house_note : Option String := none
  retro_note : Option String := none
deriving Repr, DecidableEq

/-- `RenderedAspect.to_text` (a note equal to the empty string is falsy
in Python and is skipped like `None`). -/
def RenderedAspect.to_text (r : RenderedAspect) : String :=
  let truthy := fun (o : Option String) => match o with
    | some s => if s = "" then [] else [s]
    | none => ([] : List String)
  let parts := [r.title, r.text] ++ truthy r.transit_house_note ++
    (match r.natal_house_note with
     | some s =>
       if s ≠ "" ∧ r.natal_house_note ≠ r.transit_house_note then [s] else []
     | none => []) ++
    truthy r.retro_note ++ ["Совет: " ++ r.advice]
  String.intercalate "\n" parts

/-- The external collaborators of `TransitInterpreter.render_forecast`:
`_render_aspect` (template store lookups plus `random.choice`) is the
oracle `render_aspect`, and `date.strftime("%d.%m.%Y")` is the oracle
`format_date` (the template JSON is data outside the sources). -/
structure InterpEnv where
  render_aspect : TransitAspect → ForecastResult → Option RenderedAspect
  format_date : ℤ → String

/-- `TransitInterpreter.render_forecast`: a not-`ok` result yields the
missing-data message listing `missing_fields` verbatim; otherwise each
aspect is rendered (silently dropped when no template matched) and the
paragraphs are joined under a dated heading, with a fixed sentence when
nothing rendered. -/
def render_forecast (env : InterpEnv) (forecast : ForecastResult) : String :=
  if forecast.ok = false then
    let missing := String.intercalate ", " forecast.missing_fields
    "⚠️ Не хватает данных для натальной карты.\nЗаполните: " ++ missing ++ "."
  else
    let rendered := forecast.aspects.filterMap
      (fun aspect => env.render_aspect aspect forecast)
    if rendered.isEmpty then
      "Сегодня значимые транзиты не зафиксированы. Сохраняйте спокойный ритм."
    else
      let paragraphs := rendered.map RenderedAspect.to_text
      let heading := "✨ Натальная карта дня на " ++ env.format_date forecast.target_date
      String.intercalate "\n\n" (heading :: paragraphs)

/-- `features/astro_forecast/router._format_missing_fields`: maps each
missing field key to its user-facing Russian label (both coordinates map
to the single label "координаты"), deduplicating labels while keeping
first-appearance order. -/
def format_missing_fields (result : ForecastResult) : String :=
  let mapping : List (String × String) :=
    [("birth_date", "дата рождения"), ("lat", "координаты"),
     ("lon", "координаты"), ("timezone", "часовой пояс"),
     ("profile", "профиль пользователя")]
  let human := result.missing_fields.foldl (fun acc field =>
    let label := (mapping.lookup field).getD field
    if label ∈ acc then acc else acc ++ [label]) []
  String.intercalate ", " human

/-! ### Helper lemmas -/

theorem qmod360_eq_fract (x : ℚ) : qmod360 x = 360 * Int.fract (x / 360) := by
  unfold qmod360 Int.fract
  rw [qfloor_eq_floor]
  ring

theorem qmod360_nonneg (x : ℚ) : 0 ≤ qmod360 x := by
  rw [qmod360_eq_fract]
  have := Int.fract_nonneg (x / 360)
  linarith

theorem qmod360_lt (x : ℚ) : qmod360 x < 360 := by
  rw [qmod360_eq_fract]
  have := Int.fract_lt_one (x / 360)
  linarith

theorem qmod360_eq_self {x : ℚ} (h0 : 0 ≤ x) (h1 : x < 360) : qmod360 x = x := by
  unfold qmod360
  rw [qfloor_eq_floor]
  have : ⌊x / 360⌋ = 0 := by
    rw [Int.floor_eq_zero_iff]
    constructor
    · positivity
    · exact (div_lt_one (by norm_num : (0:ℚ) < 360)).mpr h1
  rw [this]
  ring

theorem qmod360_sub_self (x : ℚ) : ∃ k : ℤ, qmod360 x = x - 360 * k := by
  exact ⟨qfloor (x / 360), rfl⟩

theorem roundHalfEven_close (x : ℚ) : |(roundHalfEven x : ℚ) - x| ≤ 1/2 := by
  unfold roundHalfEven
  rw [qfloor_eq_floor]
  have hf : (⌊x⌋ : ℚ) ≤ x := Int.floor_le x
  have hf1 : x < ⌊x⌋ + 1 := Int.lt_floor_add_one x
  split_ifs <;> (rw [abs_le]; push_cast; constructor <;> linarith)

theorem pyRound2_close (x : ℚ) : |pyRound2 x - x| ≤ 1/200 := by
  unfold pyRound2
  have h := roundHalfEven_close (x * 100)
  rw [abs_le] at h ⊢
  constructor <;> [linarith [h.1]; linarith [h.2]]

/-! ### Claim C1

`DailyTransitService.generate` on a profile with birth date and timezone
but no coordinates indeed short-circuits to `missing_fields =
["lat", "lon"]` with both charts `None` and never consults the ephemeris
provider — but `TransitInterpreter.render_forecast` prints the raw field
keys (`"Заполните: lat, lon."`); the localized label "координаты" is
produced only by `_format_missing_fields` in the feature routers. -/

/-- A profile with birth date and timezone but no coordinates
(scenario D). -/
def profileNoCoords : Profile :=
  { birth_date := some "1990-05-01", timezone := some "UTC" }

/-- An ephemeris environment fixture for the forecast orchestrator. -/
def envF0 : ForecastEnv :=
  { build_chart := fun _ _ _ _ _ => ⟨0, "natal", (0, 0), [], []⟩
    get_transit_chart := fun c _ _ => c
    today := 0 }

/-- An interpreter environment fixture (never consulted on
the missing-data branch). -/
def envI0 : InterpEnv :=
  { render_aspect := fun _ _ => none, format_date := fun _ => "" }

/-- Claim C1, counterexample: for the scenario-D profile the message
returned by `render_forecast` is the raw-field-key message
"Заполните: lat, lon." — it does not contain the localized label
"координаты" anywhere, contradicting the claim that the message names
the coordinates by that label rather than by raw field keys. -/
theorem c1_counterexample :
    render_forecast envI0 (generate envF0 6 1 profileNoCoords 1 (some 0)) =
      "⚠️ Не хватает данных для натальной карты.\nЗаполните: lat, lon." ∧
    ¬ ("координаты".toList <:+:
      (render_forecast envI0 (generate envF0 6 1 profileNoCoords 1 (some 0))).toList) ∧
    ("lat".toList <:+:
      (render_forecast envI0 (generate envF0 6 1 profileNoCoords 1 (some 0))).toList) := by
  refine ⟨by decide, by decide, by decide⟩

/-- Claim C1, amended: for every profile holding a (non-empty) birth
date and a timezone but neither coordinate, `generate` returns — for
every ephemeris environment, hence without consulting the provider — the
chartless result with `missing_fields = ["lat", "lon"]` and no aspects;
`render_forecast` then produces the fixed message listing the raw field
keys ("Заполните: lat, lon."), while the user-facing localized label
"координаты" is applied by the feature routers'
`_format_missing_fields`, which maps both `lat` and `lon` to that single
label. -/
theorem c1_amended (envF : ForecastEnv) (envI : InterpEnv) (top : ℕ)
    (mult : ℚ) (profile : Profile) (user_id : ℤ) (target_date : Option ℤ)
    (hbd : ∃ s, profile.birth_date = some s ∧ s ≠ "")
    (htz : ∃ t, profile.timezone = some t)
    (hlat : profile.lat = none) (hlon : profile.lon = none) :
    generate envF top mult profile user_id target_date =
      { user_id := user_id, target_date := target_date.getD envF.today
        natal_chart := none, transit_chart := none, aspects := []
        missing_fields := ["lat", "lon"] } ∧
    render_forecast envI (generate envF top mult profile user_id target_date) =
      "⚠️ Не хватает данных для натальной карты.\nЗаполните: lat, lon." ∧
    format_missing_fields (generate envF top mult profile user_id target_date) =
      "координаты" := by
  obtain ⟨s, hs, hsne⟩ := hbd
  obtain ⟨t, ht⟩ := htz
  have hgen : generate envF top mult profile user_id target_date =
      { user_id := user_id, target_date := target_date.getD envF.today
        natal_chart := none, transit_chart := none, aspects := []
        missing_fields := ["lat", "lon"] } := by
    unfold generate
    simp [hs, hsne, ht, hlat, hlon]
  refine ⟨hgen, ?_, ?_⟩
  · rw [hgen]
    rfl
  · rw [hgen]
    rfl

/-- Claim C1, witness for the amended theorem at the concrete
scenario-D profile. -/
theorem c1_witness :
    generate envF0 6 1 profileNoCoords 1 (some 0) =
      { user_id := 1, target_date := 0
        natal_chart := none, transit_chart := none, aspects := []
        missing_fields := ["lat", "lon"] } ∧
    render_forecast envI0 (generate envF0 6 1 profileNoCoords 1 (some 0)) =
      "⚠️ Не хватает данных для натальной карты.\nЗаполните: lat, lon." ∧
    format_missing_fields (generate envF0 6 1 profileNoCoords 1 (some 0)) =
      "координаты" :=
  c1_amended envF0 envI0 6 1 profileNoCoords 1 (some 0)
    ⟨"1990-05-01", rfl, by decide⟩ ⟨"UTC", rfl⟩ rfl rfl

/-! ### Claim C4

`_is_applying` consults only the transit body's own speed; the natal
point is treated as static.  The claim's criterion — the sign of the
speed difference between the two bodies — disagrees with the code
whenever the natal position's recorded speed changes the sign of the
difference. -/

/-- The criterion exactly as the claim words it: the sign of the speed
difference between the two bodies against the sign of the normalized
angular offset (same offset normalization as the code). -/
def applyingSpecSpeedDiff (transit natal : PlanetPosition)
    (target_angle : ℚ) : Bool :=
  let relative := qmod360 (transit.lon - natal.lon)
  let diff := relative - target_angle
  let diff := if diff > 180 then diff - 360 else diff
  let diff := if diff < -180 then diff + 360 else diff
  if diff > 0 then transit.speed - natal.speed < 0
  else transit.speed - natal.speed > 0

/-- Claim C4, counterexample: transit at 0° moving +1°/day, natal at 10°
with recorded birth speed +5°/day, target aspect 0° (offset −10°).  The
code marks the aspect applying (transit speed positive closes the gap to
the static natal point), while the claim's speed-difference criterion
(−4°/day, moving away) says it is not applying. -/
theorem c4_counterexample :
    is_applying ⟨"Mars", 0, 0, 1, false⟩ ⟨"Sun", 10, 0, 5, false⟩ 0 = true ∧
    applyingSpecSpeedDiff ⟨"Mars", 0, 0, 1, false⟩ ⟨"Sun", 10, 0, 5, false⟩ 0 =
      false := by
  constructor <;> norm_num [is_applying, applyingSpecSpeedDiff, qmod360, qfloor]

theorem modEq360_eq_of_close (x y : ℚ) (h : ∃ k : ℤ, x - y = 360 * k)
    (hlt : |x - y| < 360) : x = y := by
  obtain ⟨k, hk⟩ := h
  rw [hk] at hlt
  have h1 : |(360 : ℚ) * (k : ℚ)| = 360 * |(k : ℚ)| := by
    rw [abs_mul]; norm_num
  rw [h1] at hlt
  have h2 : |(k : ℚ)| < 1 := by linarith
  rw [← Int.cast_abs] at h2
  have h3 : |k| < 1 := by exact_mod_cast h2
  have h4 : k = 0 := by
    have := abs_lt.mp h3
    omega
  rw [h4] at hk
  push_cast at hk
  linarith

/-- Claim C4, amended: the applying flag is computed from the transit
body's own angular velocity, the natal point being static: with the
angular offset `δ` — the representative of
`transit.lon − natal.lon − target` in `(−180, 180)` (the exact ±180°
boundary excluded) — the flag is true exactly when `δ > 0` and the
transit body moves backward, or `δ ≤ 0` and it moves forward. -/
theorem c4_amended (transit natal : PlanetPosition) (target_angle δ : ℚ)
    (htarget0 : 0 ≤ target_angle) (htarget1 : target_angle ≤ 180)
    (hδk : ∃ k : ℤ, δ = transit.lon - natal.lon - target_angle + 360 * k)
    (hδlo : -180 < δ) (hδhi : δ < 180) :
    is_applying transit natal target_angle =
      (if 0 < δ then decide (transit.speed < 0) else decide (0 < transit.speed)) := by
  obtain ⟨k, hk⟩ := hδk
  unfold is_applying
  obtain ⟨m, hm⟩ := qmod360_sub_self (transit.lon - natal.lon)
  have h0 : 0 ≤ qmod360 (transit.lon - natal.lon) := qmod360_nonneg _
  have h1 : qmod360 (transit.lon - natal.lon) < 360 := qmod360_lt _
  set r := qmod360 (transit.lon - natal.lon) with hr
  by_cases hgt : r - target_angle > 180
  · have hval : r - target_angle - 360 = δ := by
      refine modEq360_eq_of_close _ _ ⟨-(k + m) - 1, ?_⟩ ?_
      · rw [hk, hm]; push_cast; ring
      · rw [abs_lt]; constructor <;> nlinarith
    have hnot : ¬ (δ < -180) := by linarith
    simp only [if_pos hgt, hval, if_neg hnot, gt_iff_lt]
  · have hval : r - target_angle = δ := by
      refine modEq360_eq_of_close _ _ ⟨-(k + m), ?_⟩ ?_
      · rw [hk, hm]; push_cast; ring
      · push_neg at hgt
        rw [abs_lt]; constructor <;> nlinarith
    rw [hval, gt_iff_lt] at hgt
    have hnot : ¬ (δ < -180) := by linarith
    simp only [hval, gt_iff_lt, if_neg hgt, if_neg hnot]

/-! ### Lookup and sorting helper lemmas -/

theorem lookup_mem {α β : Type} [BEq α] [LawfulBEq α] {l : List (α × β)}
    {k : α} {v : β} (h : l.lookup k = some v) : (k, v) ∈ l := by
  induction l with
  | nil => simp [List.lookup] at h
  | cons e t ih =>
    obtain ⟨a, b⟩ := e
    rw [List.lookup_cons] at h
    by_cases hk : k = a
    · subst hk
      simp only [beq_self_eq_true] at h
      simp only [Option.some.injEq] at h
      subst h
      exact List.mem_cons_self _ _
    · rw [beq_eq_false_iff_ne.mpr hk] at h
      exact List.mem_cons_of_mem _ (ih h)

theorem lookup_isSome_of_mem_fst {α β : Type} [BEq α] [LawfulBEq α]
    {l : List (α × β)} {k : α} (h : k ∈ l.map Prod.fst) :
    ∃ v, l.lookup k = some v := by
  induction l with
  | nil => simp at h
  | cons e t ih =>
    rw [List.map_cons, List.mem_cons] at h
    rw [List.lookup]
    by_cases hk : k = e.1
    · rw [beq_iff_eq.mpr hk]
      exact ⟨e.2, rfl⟩
    · rw [beq_eq_false_iff_ne.mpr hk]
      exact ih (h.resolve_left hk)

theorem filterMap_lookup_props {α β : Type} [BEq α] [LawfulBEq α]
    (cache : List (α × β)) (ks : List α)
    (h : ∀ k ∈ ks, ∃ v, cache.lookup k = some v) :
    (ks.filterMap (fun k => (cache.lookup k).map (fun v => (k, v)))).length =
      ks.length ∧
    (ks.filterMap (fun k => (cache.lookup k).map (fun v => (k, v)))).map
      Prod.fst = ks ∧
    ∀ e ∈ ks.filterMap (fun k => (cache.lookup k).map (fun v => (k, v))),
      cache.lookup e.1 = some e.2 := by
  induction ks with
  | nil => simp
  | cons k t ih =>
    obtain ⟨v, hv⟩ := h k (List.mem_cons_self _ _)
    have ht := ih (fun k' hk' => h k' (List.mem_cons_of_mem _ hk'))
    rw [List.filterMap_cons]
    simp only [hv, Option.map_some]
    refine ⟨?_, ?_, ?_⟩
    · simp [ht.1]
    · simp [ht.2.1]
    · intro e he
      cases he with
      | head => exact hv
      | tail _ h2 => exact ht.2.2 e h2

/-- Claim C4, witness for the amended theorem: transit at 350°, natal at
0°, conjunction (target 0°), offset δ = −10°; the transit body moving
forward is applying. -/
theorem c4_witness :
    (0 : ℚ) ≤ 0 ∧ (0 : ℚ) ≤ 180 ∧ (-180 : ℚ) < -10 ∧ (-10 : ℚ) ≤ 180 ∧
    is_applying ⟨"Mars", 350, 0, 1, false⟩ ⟨"Sun", 0, 0, 0, false⟩ 0 =
      (if (0 : ℚ) < -10 then decide ((1 : ℚ) < 0) else decide ((0 : ℚ) < 1)) :=
  ⟨le_refl 0, by norm_num, by norm_num, by norm_num,
    c4_amended ⟨"Mars", 350, 0, 1, false⟩ ⟨"Sun", 0, 0, 0, false⟩ 0 (-10)
      (le_refl 0) (by norm_num) ⟨-1, by norm_num⟩ (by norm_num) (by norm_num)⟩

/-! ### Claim C5

`_prune_cache` does trim the cache to (the ceiling of) half its
configured capacity keeping the most recent dates, but the enrichment of
a cache hit that lacks the natal house is only returned to the caller —
`_compute_day` never writes the upgraded entry back, so the stored entry
stays unenriched and every later hit recomputes the house. -/

theorem prune_cache_spec (cs : ℕ) (cache : DayCache)
    (hover : cache.length > cs) (hpos : 0 < cs) :
    (prune_cache cs cache).length = (cs + 1) / 2 ∧
    (∀ e ∈ prune_cache cs cache, e ∈ cache) ∧
    (∀ e ∈ prune_cache cs cache, ∀ e' ∈ cache,
      e'.1 ∉ (prune_cache cs cache).map Prod.fst → e'.1.1 ≤ e.1.1) := by
  have hmne : ¬ ((cs + 1) / 2 = 0) := by omega
  have hdef : prune_cache cs cache =
      (((cache.map Prod.fst).mergeSort (fun a b => a.1 ≤ b.1)).drop
        (((cache.map Prod.fst).mergeSort (fun a b => a.1 ≤ b.1)).length -
          (cs + 1) / 2)).filterMap
        (fun k => (cache.lookup k).map (fun v => (k, v))) := by
    unfold prune_cache
    rw [if_pos hover]
    simp only [if_neg hmne]
  have htrans : ∀ a b c : ℤ × String,
      (fun a b : ℤ × String => decide (a.1 ≤ b.1)) a b →
      (fun a b : ℤ × String => decide (a.1 ≤ b.1)) b c →
      (fun a b : ℤ × String => decide (a.1 ≤ b.1)) a c := by
    intro a b c hab hbc
    simp only [decide_eq_true_eq] at *
    exact le_trans hab hbc
  have htotal : ∀ a b : ℤ × String,
      ((fun a b : ℤ × String => decide (a.1 ≤ b.1)) a b ||
       (fun a b : ℤ × String => decide (a.1 ≤ b.1)) b a) := by
    intro a b
    rcases le_total a.1 b.1 with h | h <;> simp [h]
  have hsk : ((cache.map Prod.fst).mergeSort
      (fun a b => a.1 ≤ b.1)).length = cache.length := by
    rw [List.length_mergeSort, List.length_map]
  have hkeepmem : ∀ k ∈ ((cache.map Prod.fst).mergeSort
        (fun a b => a.1 ≤ b.1)).drop
        (((cache.map Prod.fst).mergeSort (fun a b => a.1 ≤ b.1)).length -
          (cs + 1) / 2),
      k ∈ cache.map Prod.fst := by
    intro k hk
    exact List.mem_mergeSort.mp (List.mem_of_mem_drop hk)
  have hlook : ∀ k ∈ ((cache.map Prod.fst).mergeSort
        (fun a b => a.1 ≤ b.1)).drop
        (((cache.map Prod.fst).mergeSort (fun a b => a.1 ≤ b.1)).length -
          (cs + 1) / 2),
      ∃ v, cache.lookup k = some v :=
    fun k hk => lookup_isSome_of_mem_fst (hkeepmem k hk)
  obtain ⟨hlen, hmap, hfm⟩ := filterMap_lookup_props cache _ hlook
  refine ⟨?_, ?_, ?_⟩
  · rw [hdef, hlen, List.length_drop, hsk]
    omega
  · intro e he
    rw [hdef] at he
    have := hfm e he
    have hmem := lookup_mem this
    simpa using hmem
  · intro e he e' he' hnot
    rw [hdef] at he hnot
    rw [hmap] at hnot
    have hin : e'.1 ∈ (cache.map Prod.fst).mergeSort
        (fun a b : ℤ × String => a.1 ≤ b.1) :=
      List.mem_mergeSort.mpr (List.mem_map_of_mem Prod.fst he')
    have hsplit := List.take_append_drop
      (((cache.map Prod.fst).mergeSort (fun a b => a.1 ≤ b.1)).length -
        (cs + 1) / 2)
      ((cache.map Prod.fst).mergeSort (fun a b : ℤ × String => a.1 ≤ b.1))
    have hsorted : (((cache.map Prod.fst).mergeSort
        (fun a b : ℤ × String => a.1 ≤ b.1)).Pairwise
        (fun a b : ℤ × String => decide (a.1 ≤ b.1))) :=
      List.sorted_mergeSort htrans htotal (cache.map Prod.fst)
    rw [← hsplit] at hsorted
    have hcross := (List.pairwise_append.mp hsorted).2.2
    have hintake : e'.1 ∈ (((cache.map Prod.fst).mergeSort
        (fun a b : ℤ × String => a.1 ≤ b.1)).take
        (((cache.map Prod.fst).mergeSort (fun a b => a.1 ≤ b.1)).length -
          (cs + 1) / 2)) := by
      rw [← hsplit] at hin
      rcases List.mem_append.mp hin with h | h
      · exact h
      · exact absurd h hnot
    have hindrop : e.1 ∈ (((cache.map Prod.fst).mergeSort
        (fun a b : ℤ × String => a.1 ≤ b.1)).drop
        (((cache.map Prod.fst).mergeSort (fun a b => a.1 ≤ b.1)).length -
          (cs + 1) / 2)) := by
      rw [← hmap]
      exact List.mem_map_of_mem Prod.fst he
    have := hcross e'.1 hintake e.1 hindrop
    simpa using this

theorem compute_day_hit (env : LunarEnv) (cs : ℕ) (cache : DayCache)
    (d : ℤ) (tz : String) (natal : ChartSnapshot) (cached : DayContext)
    (h : ℤ) (hhit : cache.lookup (d, tz) = some cached)
    (hnone : cached.natal_house = none)
    (hmoon : get_moon_natal_house env d tz natal = some h) (hh : h ≠ 0) :
    compute_day env cs cache d tz (some natal) =
      ({ cached with natal_house := some h }, cache) := by
  unfold compute_day
  rw [hhit]
  simp [hnone, hmoon, hh]

/-- Lunar day-context fixture without house enrichment. -/
def ctxPlain : DayContext := ⟨0, ⟨"new_moon"⟩, ⟨0⟩, 0, 0, none⟩

/-- A natal chart whose only cusp is house 5 at longitude 0, so every
longitude resolves to house 5. -/
def natalH5 : ChartSnapshot := ⟨0, "natal", (0, 0), [], [⟨5, 0⟩]⟩

/-- A lunar environment fixture with Sun and Moon at longitude 0. -/
def envL0 : LunarEnv := ⟨fun _ _ => 0, fun _ _ => 0, fun _ => 1⟩

/-- A one-entry day cache holding the unenriched context. -/
def cacheOne : DayCache := [((0, "UTC"), ctxPlain)]

/-- Claim C5, counterexample: on a cache hit lacking house enrichment
with a natal chart supplied, `_compute_day` returns the enriched context
(house 5) but the stored cache entry is NOT upgraded: the cache is
returned unchanged and still maps the key to the entry with
`natal_house = None`, contradicting the claim that the stored entry is
upgraded in place so that a subsequent hit sees the enriched entry. -/
theorem c5_counterexample :
    (compute_day envL0 100 cacheOne 0 "UTC" (some natalH5)).1.natal_house =
      some 5 ∧
    (compute_day envL0 100 cacheOne 0 "UTC" (some natalH5)).2 = cacheOne ∧
    ((compute_day envL0 100 cacheOne 0 "UTC" (some natalH5)).2.lookup
      (0, "UTC")).map DayContext.natal_house = some none := by
  have hmoon : get_moon_natal_house envL0 0 "UTC" natalH5 = some 5 := by
    simp [get_moon_natal_house, natalH5, envL0, determine_house, houseScan,
      qmod360, qfloor]
  have hc := compute_day_hit envL0 100 cacheOne 0 "UTC" natalH5 ctxPlain 5
    (by simp [cacheOne]) rfl hmoon (by norm_num)
  rw [hc]
  refine ⟨rfl, rfl, by simp [cacheOne, ctxPlain]⟩

/-- Claim C5, amended: whenever the cache exceeds its configured
capacity it is trimmed to `⌈capacity/2⌉` entries (Python
`keys[-cache_size // 2:]`), all taken from the previous cache and all
with dates at least as recent as every evicted entry; and on a cache hit
lacking house enrichment while a natal chart is supplied, the call
returns the context recomputed with the Moon's natal house, but the
stored cache entry is NOT upgraded: the cache is returned unchanged (the
key is never removed, and a subsequent hit recomputes the enrichment
rather than reading it). -/
theorem c5_amended (env : LunarEnv) (cache_size : ℕ) (cache pcache : DayCache)
    (d : ℤ) (tz : String) (natal : ChartSnapshot) (cached : DayContext)
    (h : ℤ)
    (hover : pcache.length > cache_size) (hpos : 0 < cache_size)
    (hhit : cache.lookup (d, tz) = some cached)
    (hnone : cached.natal_house = none)
    (hmoon : get_moon_natal_house env d tz natal = some h) (hh : h ≠ 0) :
    (prune_cache cache_size pcache).length = (cache_size + 1) / 2 ∧
    (∀ e ∈ prune_cache cache_size pcache, e ∈ pcache) ∧
    (∀ e ∈ prune_cache cache_size pcache, ∀ e' ∈ pcache,
      e'.1 ∉ (prune_cache cache_size pcache).map Prod.fst →
      e'.1.1 ≤ e.1.1) ∧
    compute_day env cache_size cache d tz (some natal) =
      ({ cached with natal_house := some h }, cache) := by
  obtain ⟨h1, h2, h3⟩ := prune_cache_spec cache_size pcache hover hpos
  exact ⟨h1, h2, h3,
    compute_day_hit env cache_size cache d tz natal cached h hhit hnone
      hmoon hh⟩

/-- Claim C5, witness: the amended theorem applied to a two-entry cache
over capacity 1 and the concrete unenriched hit. -/
theorem c5_witness :
    ([((0, "UTC"), ctxPlain), ((1, "UTC"), ctxPlain)] : DayCache).length > 1 ∧
    (prune_cache 1 [((0, "UTC"), ctxPlain), ((1, "UTC"), ctxPlain)]).length =
      1 ∧
    compute_day envL0 1 cacheOne 0 "UTC" (some natalH5) =
      ({ ctxPlain with natal_house := some 5 }, cacheOne) := by
  have := c5_amended envL0 1 cacheOne
    [((0, "UTC"), ctxPlain), ((1, "UTC"), ctxPlain)] 0 "UTC" natalH5
    ctxPlain 5 (by simp) (by norm_num) (by simp [cacheOne]) rfl
    (by simp [get_moon_natal_house, natalH5, envL0, determine_house,
      houseScan, qmod360, qfloor]) (by norm_num)
  exact ⟨by simp, this.1, this.2.2.2⟩

/-! ### Claim C8

The lunar phase bucket, zodiac sign index and illumination computed by
`_compute_day` / `_phase_from_angle` match the stated formulas; at phase
angle 45° the bucket is `waxing_crescent` and the illumination rounds
to 15. -/

/-- The phase bucket map as the claim states it, with disjoint
intervals: new < 20 or ≥ 340; waxing-crescent on [20, 70);
first-quarter on [70, 110); waxing-gibbous on [110, 160); full on
[160, 200); waning-gibbous on [200, 250); last-quarter on [250, 300);
waning-crescent on [300, 340). -/
def phaseSpec (a : ℚ) : PhaseDefinition :=
  if 20 ≤ a ∧ a < 70 then ⟨"waxing_crescent"⟩
  else if 70 ≤ a ∧ a < 110 then ⟨"first_quarter"⟩
  else if 110 ≤ a ∧ a < 160 then ⟨"waxing_gibbous"⟩
  else if 160 ≤ a ∧ a < 200 then ⟨"full_moon"⟩
  else if 200 ≤ a ∧ a < 250 then ⟨"waning_gibbous"⟩
  else if 250 ≤ a ∧ a < 300 then ⟨"last_quarter"⟩
  else if 300 ≤ a ∧ a < 340 then ⟨"waning_crescent"⟩
  else ⟨"new_moon"⟩

theorem phase_from_angle_eq_spec (a : ℚ) (h0 : 0 ≤ a) (h1 : a < 360) :
    phase_from_angle a = phaseSpec a := by
  unfold phase_from_angle phaseSpec
  by_cases c1 : a < 20 ∨ 340 ≤ a
  · rw [if_pos c1]
    rcases c1 with h | h <;>
      rw [if_neg (show ¬ (20 ≤ a ∧ a < 70) by rintro ⟨hx, hy⟩; linarith),
        if_neg (show ¬ (70 ≤ a ∧ a < 110) by rintro ⟨hx, hy⟩; linarith),
        if_neg (show ¬ (110 ≤ a ∧ a < 160) by rintro ⟨hx, hy⟩; linarith),
        if_neg (show ¬ (160 ≤ a ∧ a < 200) by rintro ⟨hx, hy⟩; linarith),
        if_neg (show ¬ (200 ≤ a ∧ a < 250) by rintro ⟨hx, hy⟩; linarith),
        if_neg (show ¬ (250 ≤ a ∧ a < 300) by rintro ⟨hx, hy⟩; linarith),
        if_neg (show ¬ (300 ≤ a ∧ a < 340) by rintro ⟨hx, hy⟩; linarith)]
  · have hsplit : ¬ (a < 20) ∧ ¬ (340 ≤ a) := not_or.mp c1
    have hge20 : 20 ≤ a := not_lt.mp hsplit.1
    have hlt340 : a < 340 := not_le.mp hsplit.2
    rw [if_neg c1]
    by_cases c2 : a < 70
    · rw [if_pos c2, if_pos ⟨hge20, c2⟩]
    · push_neg at c2
      rw [if_neg (not_lt.mpr c2),
        if_neg (show ¬ (20 ≤ a ∧ a < 70) by rintro ⟨hx, hy⟩; linarith)]
      by_cases c3 : a < 110
      · rw [if_pos c3, if_pos ⟨c2, c3⟩]
      · push_neg at c3
        rw [if_neg (not_lt.mpr c3),
          if_neg (show ¬ (70 ≤ a ∧ a < 110) by rintro ⟨hx, hy⟩; linarith)]
        by_cases c4 : a < 160
        · rw [if_pos c4, if_pos ⟨c3, c4⟩]
        · push_neg at c4
          rw [if_neg (not_lt.mpr c4),
            if_neg (show ¬ (110 ≤ a ∧ a < 160) by rintro ⟨hx, hy⟩; linarith)]
          by_cases c5 : a < 200
          · rw [if_pos c5, if_pos ⟨c4, c5⟩]
          · push_neg at c5
            rw [if_neg (not_lt.mpr c5),
              if_neg (show ¬ (160 ≤ a ∧ a < 200) by rintro ⟨hx, hy⟩; linarith)]
            by_cases c6 : a < 250
            · rw [if_pos c6, if_pos ⟨c5, c6⟩]
            · push_neg at c6
              rw [if_neg (not_lt.mpr c6),
                if_neg (show ¬ (200 ≤ a ∧ a < 250) by
                  rintro ⟨hx, hy⟩; linarith)]
              by_cases c7 : a < 300
              · rw [if_pos c7, if_pos ⟨c6, c7⟩]
              · push_neg at c7
                rw [if_neg (not_lt.mpr c7),
                  if_neg (show ¬ (250 ≤ a ∧ a < 300) by
                    rintro ⟨hx, hy⟩; linarith)]
                rw [if_pos ⟨c7, hlt340⟩]

theorem sign_defs_get (i : ℕ) (hi : i < 12) :
    (SIGN_DEFINITIONS.get? i).getD ⟨0⟩ = ⟨i⟩ := by
  unfold SIGN_DEFINITIONS
  rw [List.get?_map]
  rw [List.get?_range hi]
  rfl

/-- Claim C8: for every lunar environment and fresh cache, the day
context's phase bucket is `phase_from_angle` of the phase angle
`(moon − sun) mod 360` and agrees with the claim's 8 disjoint interval
buckets on `[0, 360)`; the zodiac sign index equals
`⌊moon_lon / 30⌋ mod 12`; the illumination is the clamped rounding of
`(1 − cos(angle)) × 50` and always lies in `[0, 100]`; and at phase
angle 45° (Sun 0°, Moon 45°) the bucket is `waxing_crescent`, the sign
index is 1, and — for any cosine oracle within `[0.7070, 0.7072]` at
45°, an interval that provably contains the true `cos 45°` — the
illumination is exactly 15. -/
theorem c8 (env : LunarEnv) (cs : ℕ) (tz : String) (d : ℤ)
    (hcos0 : 7070/10000 ≤ env.cosDeg 45) (hcos1 : env.cosDeg 45 ≤ 7072/10000)
    (hsun : env.sun_lon d tz = 0) (hmoon : env.moon_lon d tz = 45) :
    (∀ a : ℚ, 0 ≤ a → a < 360 → phase_from_angle a = phaseSpec a) ∧
    (∀ env' : LunarEnv, ∀ d' tz',
      ((compute_day env' cs [] d' tz' none).1.phase =
        phase_from_angle
          (qmod360 (env'.moon_lon d' tz' - env'.sun_lon d' tz')) ∧
      ((compute_day env' cs [] d' tz' none).1.moon_sign.index : ℤ) =
        ⌊env'.moon_lon d' tz' / 30⌋ % 12 ∧
      (compute_day env' cs [] d' tz' none).1.illumination =
        min (max (roundHalfEven
          ((1 - env'.cosDeg
            (qmod360 (env'.moon_lon d' tz' - env'.sun_lon d' tz'))) * 50))
          0) 100 ∧
      0 ≤ (compute_day env' cs [] d' tz' none).1.illumination ∧
      (compute_day env' cs [] d' tz' none).1.illumination ≤ 100)) ∧
    Real.cos (45 * Real.pi / 180) ∈
      Set.Icc ((7070/10000 : ℚ) : ℝ) ((7072/10000 : ℚ) : ℝ) ∧
    (compute_day env cs [] d tz none).1.phase = ⟨"waxing_crescent"⟩ ∧
    ((compute_day env cs [] d tz none).1.moon_sign.index : ℤ) = 1 ∧
    (compute_day env cs [] d tz none).1.illumination = 15 := by
  have hmodidx : ∀ m : ℚ, 0 ≤ ⌊m / 30⌋ % 12 ∧ ⌊m / 30⌋ % 12 < 12 := by
    intro m
    constructor
    · exact Int.emod_nonneg _ (by norm_num)
    · exact Int.emod_lt_of_pos _ (by norm_num)
  have hsign : ∀ m : ℚ,
      (((SIGN_DEFINITIONS.get? ((qfloor (m / 30) % 12).toNat)).getD
        ⟨0⟩).index : ℤ) = ⌊m / 30⌋ % 12 := by
    intro m
    have h12 := hmodidx m
    rw [qfloor_eq_floor]
    have hlt : (⌊m / 30⌋ % 12).toNat < 12 := by omega
    rw [sign_defs_get _ hlt]
    simp only []
    omega
  have hgeneral : ∀ env' : LunarEnv, ∀ d' tz',
      ((compute_day env' cs [] d' tz' none).1.phase =
        phase_from_angle
          (qmod360 (env'.moon_lon d' tz' - env'.sun_lon d' tz')) ∧
      ((compute_day env' cs [] d' tz' none).1.moon_sign.index : ℤ) =
        ⌊env'.moon_lon d' tz' / 30⌋ % 12 ∧
      (compute_day env' cs [] d' tz' none).1.illumination =
        min (max (roundHalfEven
          ((1 - env'.cosDeg
            (qmod360 (env'.moon_lon d' tz' - env'.sun_lon d' tz'))) * 50))
          0) 100 ∧
      0 ≤ (compute_day env' cs [] d' tz' none).1.illumination ∧
      (compute_day env' cs [] d' tz' none).1.illumination ≤ 100) := by
    intro env' d' tz'
    have hco : (compute_day env' cs [] d' tz' none).1 =
        { date := d'
          phase := phase_from_angle
            (qmod360 (env'.moon_lon d' tz' - env'.sun_lon d' tz'))
          moon_sign := (SIGN_DEFINITIONS.get?
            ((qfloor (env'.moon_lon d' tz' / 30) % 12).toNat)).getD ⟨0⟩
          illumination := min (max (roundHalfEven
            ((1 - env'.cosDeg
              (qmod360 (env'.moon_lon d' tz' - env'.sun_lon d' tz'))) * 50))
            0) 100
          angle := qmod360 (env'.moon_lon d' tz' - env'.sun_lon d' tz')
          natal_house := none } := by
      unfold compute_day
      rfl
    rw [hco]
    refine ⟨rfl, hsign _, rfl, ?_, ?_⟩
    · simp only []
      exact le_min (le_max_right _ _) (by norm_num)
    · simp only []
      exact min_le_right _ _
  have hangle : qmod360 (env.moon_lon d tz - env.sun_lon d tz) = 45 := by
    rw [hsun, hmoon]
    rw [show (45 : ℚ) - 0 = 45 by norm_num]
    exact qmod360_eq_self (by norm_num) (by norm_num)
  have hsqrt_lo : (1.4140 : ℝ) < Real.sqrt 2 := by
    nlinarith [Real.sq_sqrt (by norm_num : (0:ℝ) ≤ 2), Real.sqrt_nonneg 2]
  have hsqrt_hi : Real.sqrt 2 < (1.4144 : ℝ) := by
    nlinarith [Real.sq_sqrt (by norm_num : (0:ℝ) ≤ 2), Real.sqrt_nonneg 2]
  have hcosval : Real.cos (45 * Real.pi / 180) = Real.sqrt 2 / 2 := by
    have : (45 : ℝ) * Real.pi / 180 = Real.pi / 4 := by ring
    rw [this, Real.cos_pi_div_four]
  refine ⟨phase_from_angle_eq_spec, hgeneral, ?_, ?_, ?_, ?_⟩
  · rw [hcosval]
    constructor
    · push_cast
      nlinarith
    · push_cast
      nlinarith
  · rw [(hgeneral env d tz).1, hangle]
    unfold phase_from_angle
    norm_num
  · rw [(hgeneral env d tz).2.1, hmoon]
    rw [show (45 : ℚ) / 30 = 3/2 by norm_num]
    rw [show ⌊(3/2 : ℚ)⌋ = 1 by rw [Int.floor_eq_iff] <;> norm_num]
    decide
  · rw [(hgeneral env d tz).2.2.1, hangle]
    have hround : roundHalfEven ((1 - env.cosDeg 45) * 50) = 15 := by
      set x := (1 - env.cosDeg 45) * 50 with hx
      have hxlo : (14.64 : ℚ) ≤ x := by rw [hx]; nlinarith
      have hxhi : x ≤ (14.65 : ℚ) := by rw [hx]; nlinarith
      have hfl : qfloor x = 14 := by
        rw [qfloor_eq_floor]
        rw [Int.floor_eq_iff]
        constructor
        · push_cast; linarith
        · push_cast; linarith
      unfold roundHalfEven
      rw [hfl]
      rw [if_neg (by push_cast; linarith), if_pos (by push_cast; linarith)]
      decide
    rw [hround]
    norm_num

/-- Claim C8, witness: a concrete lunar environment with Sun 0°, Moon
45° and cosine oracle 0.7071 at 45°. -/
def envL45 : LunarEnv := ⟨fun _ _ => 0, fun _ _ => 45, fun _ => 7071/10000⟩

/-- Claim C8, witness theorem. -/
theorem c8_witness :
    (7070/10000 : ℚ) ≤ 7071/10000 ∧ (7071/10000 : ℚ) ≤ 7072/10000 ∧
    ((compute_day envL45 100 [] 0 "UTC" none).1.phase = ⟨"waxing_crescent"⟩ ∧
     ((compute_day envL45 100 [] 0 "UTC" none).1.moon_sign.index : ℤ) = 1 ∧
     (compute_day envL45 100 [] 0 "UTC" none).1.illumination = 15) := by
  have h := c8 envL45 100 "UTC" 0 (by norm_num [envL45]) (by norm_num [envL45]) rfl rfl
  exact ⟨by norm_num, by norm_num, h.2.2.2.1, h.2.2.2.2.1, h.2.2.2.2.2⟩

/-! ### Claim C2

Python's `sort(key=(score, -len(categories), slug), reverse=True)`
reverses the WHOLE key tuple: the result is ordered by score descending,
then category-count ASCENDING (the negation is undone by the reverse),
then slug DESCENDING — not by category-count descending and slug
ascending as the claim states.  The threshold-relaxation chain is as
claimed. -/

theorem keyLt_trans {x y z : ℤ × ℤ × String} (h1 : keyLt x y)
    (h2 : keyLt y z) : keyLt x z := by
  unfold keyLt at *
  rcases h1 with h1 | ⟨e1, h1⟩ <;> rcases h2 with h2 | ⟨e2, h2⟩
  · exact Or.inl (lt_trans h1 h2)
  · exact Or.inl (e2 ▸ h1)
  · exact Or.inl (e1 ▸ h2)
  · refine Or.inr ⟨e1.trans e2, ?_⟩
    rcases h1 with h1 | ⟨f1, h1⟩ <;> rcases h2 with h2 | ⟨f2, h2⟩
    · exact Or.inl (lt_trans h1 h2)
    · exact Or.inl (f2 ▸ h1)
    · exact Or.inl (f1 ▸ h2)
    · exact Or.inr ⟨f1.trans f2, lt_trans h1 h2⟩

theorem keyLt_trichot (x y : ℤ × ℤ × String) :
    keyLt x y ∨ x = y ∨ keyLt y x := by
  unfold keyLt
  rcases lt_trichotomy x.1 y.1 with h | h | h
  · exact Or.inl (Or.inl h)
  · rcases lt_trichotomy x.2.1 y.2.1 with h2 | h2 | h2
    · exact Or.inl (Or.inr ⟨h, Or.inl h2⟩)
    · rcases lt_trichotomy x.2.2 y.2.2 with h3 | h3 | h3
      · exact Or.inl (Or.inr ⟨h, Or.inr ⟨h2, h3⟩⟩)
      · refine Or.inr (Or.inl ?_)
        obtain ⟨x1, x2, x3⟩ := x
        obtain ⟨y1, y2, y3⟩ := y
        simp only [] at h h2 h3
        rw [h, h2, h3]
      · exact Or.inr (Or.inr (Or.inr ⟨h.symm, Or.inr ⟨h2.symm, h3⟩⟩))
    · exact Or.inr (Or.inr (Or.inr ⟨h.symm, Or.inl h2⟩))
  · exact Or.inr (Or.inr (Or.inl h))

theorem selectSortLe_trans : ∀ a b c : ActionSuggestion,
    selectSortLe a b → selectSortLe b c → selectSortLe a c := by
  intro a b c hab hbc
  unfold selectSortLe at *
  rw [decide_eq_true_eq] at *
  rcases hab with hab | hab <;> rcases hbc with hbc | hbc
  · exact Or.inl (keyLt_trans hbc hab)
  · exact Or.inl (hbc ▸ hab)
  · exact Or.inl (hab ▸ hbc)
  · exact Or.inr (hbc.trans hab)

theorem selectSortLe_total : ∀ a b : ActionSuggestion,
    selectSortLe a b || selectSortLe b a := by
  intro a b
  unfold selectSortLe
  rcases keyLt_trichot (actionKey b) (actionKey a) with h | h | h
  · simp [h]
  · simp [h]
  · simp [h]

/-- Day-context fixture whose phase key has explicit advice in the
counterexample catalog. -/
def dayP : DayContext := ⟨0, ⟨"p"⟩, ⟨0⟩, 0, 0, none⟩

/-- A score-2 advice shared by the counterexample actions. -/
def advice2 : PhaseAdvice := ⟨2, "good", "t", none⟩

/-- Counterexample action: slug "a", one category. -/
def actA : ActionDefinition := ⟨"a", "s", ["x"], false, [("p", advice2)]⟩

/-- Counterexample action: slug "b", two categories. -/
def actB : ActionDefinition := ⟨"b", "s", ["x", "y"], false, [("p", advice2)]⟩

/-- Counterexample action: slug "c", two categories. -/
def actC : ActionDefinition := ⟨"c", "s", ["x", "y"], false, [("p", advice2)]⟩

/-- Claim C2, counterexample: three equal-score candidates.  The code
returns `[a, c, b]` — the one-category action first (category-count
ascending) and, among the two-category actions, the larger slug first
(slug descending) — while the claim's ordering (category-count
descending, slug ascending) would return `[b, c, a]`. -/
theorem c2_counterexample :
    select_actions [actA, actB, actC] dayP true 3 =
      [⟨actA, advice2⟩, ⟨actC, advice2⟩, ⟨actB, advice2⟩] ∧
    select_actions_claimed [actA, actB, actC] dayP true 3 =
      [⟨actB, advice2⟩, ⟨actC, advice2⟩, ⟨actA, advice2⟩] ∧
    ([⟨actA, advice2⟩, ⟨actC, advice2⟩, ⟨actB, advice2⟩] :
      List ActionSuggestion) ≠
      [⟨actB, advice2⟩, ⟨actC, advice2⟩, ⟨actA, advice2⟩] := by
  refine ⟨?_, ?_, by decide⟩ <;>
    (simp [select_actions, select_actions_claimed, candidate_suggestions,
      dayP, actA, actB, actC, advice2, selectSortLe, claimedSortLe, keyLt,
      actionKey, RATING_SCORES, List.mergeSort, List.splitInTwo, List.merge,
      String.lt_iff, List.lookup]
     try decide)

/-- Claim C2, amended: `select_actions` sorts its candidate list stably
by score descending, then category-count ASCENDING, then slug
DESCENDING (the `reverse=True` flip applies to the whole
`(score, -category count, slug)` key), then keeps candidates with
score ≥ 2, relaxing to score ≥ 1 and then to no threshold only when the
previous threshold yields no candidate, and returns the first `limit`
of them. -/
theorem c2_amended (actions : List ActionDefinition) (day : DayContext)
    (is_premium : Bool) (limit : ℕ) :
    ((candidate_suggestions actions day is_premium).mergeSort
        selectSortLe).Perm (candidate_suggestions actions day is_premium) ∧
    ((candidate_suggestions actions day is_premium).mergeSort
        selectSortLe).Pairwise (fun x y =>
          keyLt (actionKey y) (actionKey x) ∨ actionKey y = actionKey x) ∧
    select_actions actions day is_premium limit =
      (if ((candidate_suggestions actions day is_premium).mergeSort
            selectSortLe).filter
            (fun i => decide (2 ≤ i.advice.score)) ≠ [] then
        (((candidate_suggestions actions day is_premium).mergeSort
          selectSortLe).filter
          (fun i => decide (2 ≤ i.advice.score))).take limit
      else if ((candidate_suggestions actions day is_premium).mergeSort
            selectSortLe).filter
            (fun i => decide (1 ≤ i.advice.score)) ≠ [] then
        (((candidate_suggestions actions day is_premium).mergeSort
          selectSortLe).filter
          (fun i => decide (1 ≤ i.advice.score))).take limit
      else ((candidate_suggestions actions day is_premium).mergeSort
        selectSortLe).take limit) := by
  refine ⟨List.mergeSort_perm _ _, ?_, ?_⟩
  · have hs := List.sorted_mergeSort selectSortLe_trans selectSortLe_total
      (candidate_suggestions actions day is_premium)
    refine hs.imp ?_
    intro a b hab
    have := of_decide_eq_true hab
    exact this
  · unfold select_actions
    by_cases h2 : ((candidate_suggestions actions day is_premium).mergeSort
        selectSortLe).filter (fun i => decide (2 ≤ i.advice.score)) = []
    · rw [if_neg (by simp [h2])]
      by_cases h1 : ((candidate_suggestions actions day
          is_premium).mergeSort selectSortLe).filter
          (fun i => decide (1 ≤ i.advice.score)) = []
      · rw [if_neg (by simp [h1])]
        simp [h2, h1, List.isEmpty_iff]
      · rw [if_pos h1]
        simp [h2, h1, List.isEmpty_iff]
    · rw [if_pos h2]
      simp [h2, List.isEmpty_iff]

/-! ### Claim C6

The aspect finder emits a match exactly under
`|aspect_angle − angular_distance| ≤ base_orb × multiplier`, and the
UNROUNDED orb satisfies that bound — but the stored orb is rounded to
two decimals and can exceed the bound by up to 0.005 when
`base_orb × multiplier` is not aligned to 0.01. -/

theorem assoc_nodup_eq {α β : Type} {l : List (α × β)}
    (h : (l.map Prod.fst).Nodup) {k : α} {v v' : β}
    (h1 : (k, v) ∈ l) (h2 : (k, v') ∈ l) : v = v' := by
  induction l with
  | nil => simp at h1
  | cons e t ih =>
    rw [List.map_cons, List.nodup_cons] at h
    rcases List.mem_cons.mp h1 with he1 | he1 <;>
      rcases List.mem_cons.mp h2 with he2 | he2
    · rw [← he1] at he2
      exact (Prod.mk.injEq _ _ _ _).mp he2.symm |>.2
    · exfalso
      apply h.1
      have hk : e.1 = k := by rw [← he1]
      rw [hk]
      exact List.mem_map_of_mem Prod.fst he2
    · exfalso
      apply h.1
      have hk : e.1 = k := by rw [← he2]
      rw [hk]
      exact List.mem_map_of_mem Prod.fst he1
    · exact ih h.2 he1 he2

/-- Natal position fixture: Sun at 6.006°. -/
def npos6 : PlanetPosition := ⟨"Sun", 6006/1000, 0, 1, false⟩

/-- Transit position fixture: Sun at 0°, moving forward. -/
def tpos6 : PlanetPosition := ⟨"Sun", 0, 0, 1, false⟩

/-- Natal snapshot fixture for the rounding counterexample. -/
def nat6 : ChartSnapshot := ⟨0, "natal", (0, 0), [("Sun", npos6)], []⟩

/-- Transit snapshot fixture for the rounding counterexample. -/
def tr6 : ChartSnapshot := ⟨0, "transit", (0, 0), [("Sun", tpos6)], []⟩

/-- The single aspect emitted in the rounding counterexample: the
conjunction with unrounded orb 6.006 stored as 6.01. -/
def asp6 : TransitAspect :=
  ⟨"Sun", "Sun", "conjunction", 601/100, false, true, 6/25, none, none,
    tpos6, npos6⟩

/-- Claim C6, counterexample: with orb multiplier 1.001 the conjunction
(base orb 6) matches at angular distance 6.006° — the unrounded orb
6.006 equals `base_orb × multiplier` exactly — but the STORED orb is
rounded to 6.01, which exceeds `base_orb × multiplier = 6.006`,
contradicting the claimed invariant for the stored orb. -/
theorem c6_counterexample :
    find_transit_aspects_default nat6 tr6 (1001/1000) = [asp6] ∧
    ¬ (asp6.orb ≤ 6 * (1001/1000)) ∧
    ASPECTS.lookup "conjunction" = some (0, 6) := by
  have hq : qmod360 (6006/1000) = 6006/1000 :=
    qmod360_eq_self (by norm_num) (by norm_num)
  have hq0 : qmod360 0 = 0 := qmod360_eq_self (by norm_num) (by norm_num)
  have habs : |(0 : ℚ) - 6006/1000| = 6006/1000 := by
    rw [show (0 : ℚ) - 6006/1000 = -(6006/1000) by ring, abs_neg,
      abs_of_nonneg (by norm_num)]
  have hang : angular_distance 0 (6006/1000) = 6006/1000 := by
    unfold angular_distance
    rw [habs, hq, if_neg (by norm_num)]
  have horb : calculate_orb 0 (6006/1000) = 6006/1000 := by
    unfold calculate_orb
    rw [show (0 : ℚ) - 6006/1000 = -(6006/1000) by ring, abs_neg,
      abs_of_nonneg (by norm_num)]
  have hround : pyRound2 (6006/1000) = 601/100 := by
    unfold pyRound2 roundHalfEven
    rw [show (6006/1000 : ℚ) * 100 = 3003/5 by norm_num]
    have hfl : qfloor (3003/5 : ℚ) = 600 := by
      rw [qfloor_eq_floor, Int.floor_eq_iff] <;> norm_num
    rw [hfl, if_neg (by push_cast; norm_num), if_pos (by push_cast; norm_num)]
    norm_num
  have hlkw : PLANET_WEIGHTS.lookup "Sun" = some 1 := rfl
  have hlkb : ([("conjunction", (6/5 : ℚ)), ("square", 11/10),
      ("opposition", 11/10), ("trine", 9/10),
      ("sextile", 4/5)]).lookup "conjunction" = some (6/5) := rfl
  have hlka : ASPECTS.lookup "conjunction" = some (0, 6) := rfl
  have hwt : aspect_weight "Sun" "Sun" "conjunction" (6006/1000) = 6/25 := by
    unfold aspect_weight
    rw [hlkw, hlka, hlkb]
    simp only [Option.getD_some]
    rw [show max ((0 : ℚ), (6 : ℚ)).2 1 = 6 by rw [max_eq_left] <;> norm_num]
    rw [show (1 : ℚ) - 6006 / 1000 / 6 = -(1/1000) by norm_num]
    rw [max_eq_left (by norm_num)]
    norm_num
  have hrel : qmod360 (0 - 6006/1000) = 176997/500 := by
    unfold qmod360
    rw [qfloor_eq_floor]
    rw [show ⌊((0 : ℚ) - 6006/1000) / 360⌋ = -1 by
      rw [Int.floor_eq_iff] <;> norm_num]
    norm_num
  have happ : is_applying tpos6 npos6 0 = true := by
    unfold is_applying
    simp only [tpos6, npos6]
    rw [hrel]
    rw [if_pos (show (176997/500 : ℚ) - 0 > 180 by norm_num)]
    rw [if_neg (show ¬ ((176997/500 : ℚ) - 0 - 360 < -180) by norm_num)]
    rw [if_neg (show ¬ ((176997/500 : ℚ) - 0 - 360 > 0) by norm_num)]
    norm_num
  refine ⟨?_, by norm_num [asp6], by rfl⟩
  unfold find_transit_aspects_default find_transit_aspects
  simp only [nat6, tr6, npos6, tpos6, List.map_cons, List.map_nil,
    List.flatMap_cons, List.flatMap_nil, List.lookup, beq_self_eq_true,
    List.filterMap_cons, List.filterMap_nil, ASPECTS, List.append_nil]
  rw [show determine_house (qmod360 0) [] = none from rfl]
  rw [show angular_distance 0 (6006/1000) = 6006/1000 from hang]
  rw [if_pos (show calculate_orb 0 (6006/1000) ≤ 6 * (1001/1000) by
    rw [horb]; norm_num)]
  rw [if_neg (show ¬ (calculate_orb 60 (6006/1000) ≤ 4 * (1001/1000)) by
    unfold calculate_orb; rw [abs_of_nonneg (by norm_num)]; norm_num)]
  rw [if_neg (show ¬ (calculate_orb 90 (6006/1000) ≤ 5 * (1001/1000)) by
    unfold calculate_orb; rw [abs_of_nonneg (by norm_num)]; norm_num)]
  rw [if_neg (show ¬ (calculate_orb 120 (6006/1000) ≤ 5 * (1001/1000)) by
    unfold calculate_orb; rw [abs_of_nonneg (by norm_num)]; norm_num)]
  rw [if_neg (show ¬ (calculate_orb 180 (6006/1000) ≤ 6 * (1001/1000)) by
    unfold calculate_orb; rw [abs_of_nonneg (by norm_num)]; norm_num)]
  rw [horb, hround]
  rw [show aspect_weight "Sun" "Sun" "conjunction" (6006/1000) = 6/25
    from hwt]
  rw [show is_applying ⟨"Sun", 0, 0, 1, false⟩ ⟨"Sun", 6006/1000, 0, 1, false⟩
      0 = true from happ]
  rw [List.mergeSort_singleton]
  simp only [asp6, npos6, tpos6]
  rw [show decide ((6006/1000 : ℚ) ≤ 1/10) = false from
    decide_eq_false (by norm_num)]
  rw [show determine_house (qmod360 (6006/1000)) [] = none from rfl]

theorem mem_find_transit_aspects {natal transit : ChartSnapshot}
    {aspects : List (String × ℚ × ℚ)} {include_planets : List String}
    {mult : ℚ} {a : TransitAspect} :
    a ∈ find_transit_aspects natal transit aspects include_planets mult ↔
    ∃ tc ∈ include_planets, ∃ tobj, transit.objects.lookup tc = some tobj ∧
    ∃ ne ∈ natal.objects, ∃ entry ∈ aspects,
      calculate_orb entry.2.1 (angular_distance tobj.lon ne.2.lon) ≤
        entry.2.2 * mult ∧
      a = { transit_planet := tc, natal_planet := ne.1, aspect := entry.1
            orb := pyRound2 (calculate_orb entry.2.1
              (angular_distance tobj.lon ne.2.lon))
            exact := decide (calculate_orb entry.2.1
              (angular_distance tobj.lon ne.2.lon) ≤ 1/10)
            applying := is_applying tobj ne.2 entry.2.1
            weight := aspect_weight tc ne.1 entry.1
              (calculate_orb entry.2.1 (angular_distance tobj.lon ne.2.lon))
            transit_house := determine_house (qmod360 tobj.lon) natal.houses
            natal_house := determine_house (qmod360 ne.2.lon) natal.houses
            transit_position := tobj, natal_position := ne.2 } := by
  simp only [find_transit_aspects]
  rw [List.mem_mergeSort]
  simp only [List.mem_flatMap]
  constructor
  · rintro ⟨tc, htc, ha⟩
    cases hcase : transit.objects.lookup tc with
    | none =>
      rw [hcase] at ha
      simp at ha
    | some tobj =>
      rw [hcase] at ha
      simp only [List.mem_flatMap, List.mem_filterMap] at ha
      obtain ⟨ne, hne, entry, hentry, hif⟩ := ha
      by_cases hcond : calculate_orb entry.2.1
          (angular_distance tobj.lon ne.2.lon) ≤ entry.2.2 * mult
      · rw [if_pos hcond] at hif
        refine ⟨tc, htc, tobj, hcase, ne, hne, entry, hentry, hcond, ?_⟩
        exact (Option.some.injEq _ _).mp hif |>.symm
      · rw [if_neg hcond] at hif
        simp at hif
  · rintro ⟨tc, htc, tobj, hlook, ne, hne, entry, hentry, hcond, ha⟩
    refine ⟨tc, htc, ?_⟩
    rw [hlook]
    simp only [List.mem_flatMap, List.mem_filterMap]
    exact ⟨ne, hne, entry, hentry, by rw [if_pos hcond, ha]⟩

/-- Claim C6, amended: the aspect finder emits a match for aspect kind
`k` between a transit and a natal object exactly when
`|aspect_angle − angular_distance| ≤ base_orb × multiplier` (the
UNROUNDED orb), and every returned `TransitAspect` stores an orb within
`1/200` (0.005, the two-decimal rounding slack) of that bound:
`stored orb ≤ base_orb × multiplier + 0.005` for its aspect kind. -/
theorem c6_amended (natal transit : ChartSnapshot)
    (aspects : List (String × ℚ × ℚ)) (include_planets : List String)
    (mult : ℚ) (tp np k : String) (tpos npos : PlanetPosition)
    (ang borb : ℚ)
    (htp : tp ∈ include_planets)
    (htobj : transit.objects.lookup tp = some tpos)
    (hnpos : (np, npos) ∈ natal.objects)
    (hnodupn : (natal.objects.map Prod.fst).Nodup)
    (hasp : aspects.lookup k = some (ang, borb))
    (hnodupa : (aspects.map Prod.fst).Nodup) :
    ((∃ a ∈ find_transit_aspects natal transit aspects include_planets mult,
        a.transit_planet = tp ∧ a.natal_planet = np ∧ a.aspect = k) ↔
      calculate_orb ang (angular_distance tpos.lon npos.lon) ≤ borb * mult) ∧
    (∀ a ∈ find_transit_aspects natal transit aspects include_planets mult,
      ∃ entry ∈ aspects, a.aspect = entry.1 ∧
        a.orb ≤ entry.2.2 * mult + 1/200) := by
  constructor
  · constructor
    · rintro ⟨a, ha, hatp, hanp, hak⟩
      rw [mem_find_transit_aspects] at ha
      obtain ⟨tc, htc, tobj, hlook, ne, hne, entry, hentry, hcond, haeq⟩ := ha
      rw [haeq] at hatp hanp hak
      simp only [] at hatp hanp hak
      rw [hatp] at hlook
      rw [htobj] at hlook
      have htobj_eq : tobj = tpos := (Option.some.injEq _ _).mp hlook.symm
      have hnemem : (np, ne.2) ∈ natal.objects := by
        rw [← hanp]
        exact hne
      have hne2 : ne.2 = npos := assoc_nodup_eq hnodupn hnemem hnpos
      have hentrymem : (k, entry.2) ∈ aspects := by
        rw [← hak]
        exact hentry
      have hent2 : entry.2 = (ang, borb) :=
        assoc_nodup_eq hnodupa hentrymem (lookup_mem hasp)
      rw [htobj_eq, hne2, hent2] at hcond
      exact hcond
    · intro hcond
      refine ⟨_, mem_find_transit_aspects.mpr
        ⟨tp, htp, tpos, htobj, (np, npos), hnpos, (k, (ang, borb)),
          lookup_mem hasp, hcond, rfl⟩, rfl, rfl, rfl⟩
  · intro a ha
    rw [mem_find_transit_aspects] at ha
    obtain ⟨tc, htc, tobj, hlook, ne, hne, entry, hentry, hcond, haeq⟩ := ha
    refine ⟨entry, hentry, by rw [haeq], ?_⟩
    rw [haeq]
    simp only []
    have hclose := pyRound2_close (calculate_orb entry.2.1
      (angular_distance tobj.lon ne.2.lon))
    rw [abs_le] at hclose
    linarith [hclose.2]

/-- Natal snapshot for the C6 witness: Sun at 0°. -/
def natW : ChartSnapshot := ⟨0, "natal", (0, 0), [("Sun", ⟨"Sun", 0, 0, 1, false⟩)], []⟩

/-- Transit snapshot for the C6 witness: Sun at 0°. -/
def trW : ChartSnapshot := ⟨0, "transit", (0, 0), [("Sun", ⟨"Sun", 0, 0, 1, false⟩)], []⟩

/-- Claim C6, witness: the amended theorem applied to one-planet charts
with the default aspect table and multiplier 1. -/
theorem c6_witness :
    ("Sun" ∈ ["Sun"]) ∧
    trW.objects.lookup "Sun" = some ⟨"Sun", 0, 0, 1, false⟩ ∧
    (("Sun", (⟨"Sun", 0, 0, 1, false⟩ : PlanetPosition)) ∈ natW.objects) ∧
    ASPECTS.lookup "conjunction" = some (0, 6) ∧
    (((∃ a ∈ find_transit_aspects natW trW ASPECTS ["Sun"] 1,
        a.transit_planet = "Sun" ∧ a.natal_planet = "Sun" ∧
        a.aspect = "conjunction") ↔
      calculate_orb 0 (angular_distance 0 0) ≤ 6 * 1) ∧
    (∀ a ∈ find_transit_aspects natW trW ASPECTS ["Sun"] 1,
      ∃ entry ∈ ASPECTS, a.aspect = entry.1 ∧
        a.orb ≤ entry.2.2 * 1 + 1/200)) := by
  have h := c6_amended natW trW ASPECTS ["Sun"] 1 "Sun" "Sun" "conjunction"
    ⟨"Sun", 0, 0, 1, false⟩ ⟨"Sun", 0, 0, 1, false⟩ 0 6
    (by simp) rfl (by simp [natW]) (by simp [natW]) rfl
    (by simp [ASPECTS])
  exact ⟨by simp, rfl, by simp [natW], rfl, h⟩

/-! ### Retrograde walk lemmas (claims C3 and C7) -/

theorem coversDay_cons {p : RetroPeriod} {ps : List RetroPeriod} {d : ℤ} :
    (coversDay (p :: ps) d = true) ↔
      (p.containsDay d = true ∨ coversDay ps d = true) := by
  simp [coversDay]

theorem containsDay_closed {pl : String} {s e pa d : ℤ} :
    ((⟨pl, s, some e, pa⟩ : RetroPeriod).containsDay d = true) ↔
      (s ≤ d ∧ d ≤ e) := by
  simp [RetroPeriod.containsDay]

theorem containsDay_open {pl : String} {s pa d : ℤ} :
    ((⟨pl, s, none, pa⟩ : RetroPeriod).containsDay d = true) ↔ s ≤ d := by
  simp [RetroPeriod.containsDay]

theorem cur_none_of_prev_false {prev : Bool} {cur : Option ℤ}
    (hstate : prev = true ↔ cur.isSome) (hprev : prev = false) :
    cur = none := by
  cases cur with
  | none => rfl
  | some c =>
    have := hstate.mpr (by simp)
    rw [hprev] at this
    exact absurd this (by simp)

theorem cur_some_of_prev_true {prev : Bool} {cur : Option ℤ}
    (hstate : prev = true ↔ cur.isSome) (hprev : prev = true) :
    ∃ c, cur = some c := by
  have := hstate.mp hprev
  cases cur with
  | none => simp at this
  | some c => exact ⟨c, rfl⟩

theorem walk_cover (planet : String) (pre fd : ℤ) (retro : ℤ → Bool) :
    ∀ (n : ℕ) (a : ℤ) (prev : Bool) (cur : Option ℤ) (d : ℤ),
    (prev = true ↔ cur.isSome) →
    (∀ c, cur = some c → c < a) →
    ((coversDay (retroWalk planet pre fd prev cur (pairsFrom retro a n)) d
        = true) ↔
      ((a ≤ d ∧ d < a + n ∧ retro d = true) ∨
       (∃ c, cur = some c ∧ c ≤ d ∧ d < a) ∨
       (a + n ≤ d ∧
         (if n = 0 then prev = true else retro (a + n - 1) = true)))) := by
  intro n
  induction n with
  | zero =>
    intro a prev cur d hstate hc
    cases hprev : prev with
    | true =>
      obtain ⟨c, hcur⟩ := cur_some_of_prev_true hstate hprev
      subst hcur
      have hca := hc c rfl
      simp only [pairsFrom, retroWalk, if_pos, coversDay_cons,
        containsDay_open]
      constructor
      · intro h
        rcases h with h | h
        · by_cases hda : d < a
          · exact Or.inr (Or.inl ⟨c, rfl, h, hda⟩)
          · refine Or.inr (Or.inr ⟨by omega, by simp⟩)
        · simp [coversDay] at h
      · rintro (⟨h1, h2, _⟩ | ⟨c', hc', h1, h2⟩ | ⟨h1, _⟩)
        · omega
        · injection hc' with hc'
          subst hc'
          exact Or.inl h1
        · exact Or.inl (by omega)
    | false =>
      have hcur := cur_none_of_prev_false hstate hprev
      subst hcur
      simp only [pairsFrom, retroWalk]
      rw [if_neg (by simp)]
      simp [coversDay]
      omega
  | succ n IH =>
    intro a prev cur d hstate hc
    simp only [pairsFrom, retroWalk]
    by_cases hb1 : prev = false ∧ retro a = true
    · rw [if_pos hb1]
      have hcur := cur_none_of_prev_false hstate hb1.1
      subst hcur
      rw [IH (a + 1) (retro a) (some a) d
        (by simp [hb1.2]) (by intro c hc'; injection hc' with h; omega)]
      constructor
      · rintro (⟨h1, h2, h3⟩ | ⟨c', hc', h1, h2⟩ | ⟨h1, h2⟩)
        · exact Or.inl ⟨by omega, by push_cast at *; omega, h3⟩
        · injection hc' with hc'
          have hda : d = a := by omega
          subst hda
          exact Or.inl ⟨le_refl d, by push_cast; omega, hb1.2⟩
        · refine Or.inr (Or.inr ⟨by push_cast at *; omega, ?_⟩)
          rw [if_neg (Nat.succ_ne_zero n)]
          by_cases hn : n = 0
          · subst hn
            rw [if_pos rfl] at h2
            convert h2 using 2
            push_cast
            ring
          · rw [if_neg hn] at h2
            convert h2 using 2
            push_cast
            ring
      · rintro (⟨h1, h2, h3⟩ | ⟨c', hc', h1, h2⟩ | ⟨h1, h2⟩)
        · by_cases hda : d = a
          · exact Or.inr (Or.inl ⟨a, rfl, by omega, by omega⟩)
          · exact Or.inl ⟨by omega, by push_cast at *; omega, h3⟩
        · simp at hc'
        · rw [if_neg (Nat.succ_ne_zero n)] at h2
          refine Or.inr (Or.inr ⟨by push_cast at *; omega, ?_⟩)
          by_cases hn : n = 0
          · subst hn
            rw [if_pos rfl]
            convert h2 using 2
            push_cast
            ring
          · rw [if_neg hn]
            convert h2 using 2
            push_cast
            ring
    · rw [if_neg hb1]
      by_cases hb2 : prev = true ∧ retro a = false
      · rw [if_pos hb2]
        obtain ⟨c, hcur⟩ := cur_some_of_prev_true hstate hb2.1
        subst hcur
        have hca := hc c rfl
        rw [coversDay_cons, containsDay_closed]
        rw [Option.getD_some]
        rw [IH (a + 1) (retro a) none d (by simp [hb2.2]) (by simp)]
        constructor
        · rintro (⟨h1, h2⟩ | ⟨h1, h2, h3⟩ | ⟨c', hc', h1, h2⟩ | ⟨h1, h2⟩)
          · exact Or.inr (Or.inl ⟨c, rfl, h1, by omega⟩)
          · exact Or.inl ⟨by omega, by push_cast at *; omega, h3⟩
          · simp at hc'
          · refine Or.inr (Or.inr ⟨by push_cast at *; omega, ?_⟩)
            rw [if_neg (Nat.succ_ne_zero n)]
            by_cases hn : n = 0
            · subst hn
              rw [if_pos rfl] at h2
              rw [hb2.2] at h2
              exact absurd h2 (by simp)
            · rw [if_neg hn] at h2
              convert h2 using 2
              push_cast
              ring
        · rintro (⟨h1, h2, h3⟩ | ⟨c', hc', h1, h2⟩ | ⟨h1, h2⟩)
          · by_cases hda : d = a
            · rw [hda] at h3
              rw [hb2.2] at h3
              exact absurd h3 (by simp)
            · exact Or.inr (Or.inl ⟨by omega, by push_cast at *; omega, h3⟩)
          · injection hc' with hc'
            subst hc'
            exact Or.inl ⟨h1, by omega⟩
          · rw [if_neg (Nat.succ_ne_zero n)] at h2
            by_cases hn : n = 0
            · subst hn
              have hra2 : retro a = true := by
                convert h2 using 2
                push_cast
                ring
              rw [hb2.2] at hra2
              exact absurd hra2 (by simp)
            · refine Or.inr (Or.inr (Or.inr ⟨by push_cast at *; omega, ?_⟩))
              rw [if_neg hn]
              convert h2 using 2
              push_cast
              ring
      · rw [if_neg hb2]
        cases hprev : prev with
        | true =>
          obtain ⟨c, hcur⟩ := cur_some_of_prev_true hstate hprev
          subst hcur
          have hca := hc c rfl
          have hra : retro a = true := by
            cases hretro : retro a with
            | true => rfl
            | false => exact absurd ⟨hprev, hretro⟩ hb2
          rw [IH (a + 1) (retro a) (some c) d (by simp [hra])
            (by intro c' hc'; injection hc' with h; omega)]
          constructor
          · rintro (⟨h1, h2, h3⟩ | ⟨c', hc', h1, h2⟩ | ⟨h1, h2⟩)
            · exact Or.inl ⟨by omega, by push_cast at *; omega, h3⟩
            · injection hc' with hc'
              subst hc'
              by_cases hda : d = a
              · subst hda
                exact Or.inl ⟨by omega, by push_cast; omega, hra⟩
              · exact Or.inr (Or.inl ⟨c, rfl, h1, by omega⟩)
            · refine Or.inr (Or.inr ⟨by push_cast at *; omega, ?_⟩)
              rw [if_neg (Nat.succ_ne_zero n)]
              by_cases hn : n = 0
              · subst hn
                have : a + ((0 : ℕ) + 1 : ℕ) - 1 = a := by push_cast; ring
                rw [this]
                exact hra
              · rw [if_neg hn] at h2
                convert h2 using 2
                push_cast
                ring
          · rintro (⟨h1, h2, h3⟩ | ⟨c', hc', h1, h2⟩ | ⟨h1, h2⟩)
            · by_cases hda : d = a
              · subst hda
                exact Or.inr (Or.inl ⟨c, rfl, by omega, by omega⟩)
              · exact Or.inl ⟨by omega, by push_cast at *; omega, h3⟩
            · injection hc' with hc'
              subst hc'
              exact Or.inr (Or.inl ⟨c, rfl, h1, by omega⟩)
            · rw [if_neg (Nat.succ_ne_zero n)] at h2
              refine Or.inr (Or.inr ⟨by push_cast at *; omega, ?_⟩)
              by_cases hn : n = 0
              · subst hn
                rw [if_pos rfl]
                exact hra
              · rw [if_neg hn]
                convert h2 using 2
                push_cast
                ring
        | false =>
          have hcur := cur_none_of_prev_false hstate hprev
          subst hcur
          have hra : retro a = false := by
            cases hretro : retro a with
            | false => rfl
            | true => exact absurd ⟨hprev, hretro⟩ hb1
          rw [IH (a + 1) (retro a) none d (by simp [hra]) (by simp)]
          constructor
          · rintro (⟨h1, h2, h3⟩ | ⟨c', hc', h1, h2⟩ | ⟨h1, h2⟩)
            · exact Or.inl ⟨by omega, by push_cast at *; omega, h3⟩
            · simp at hc'
            · refine Or.inr (Or.inr ⟨by push_cast at *; omega, ?_⟩)
              rw [if_neg (Nat.succ_ne_zero n)]
              by_cases hn : n = 0
              · subst hn
                rw [if_pos rfl] at h2
                rw [hra] at h2
                exact absurd h2 (by simp)
              · rw [if_neg hn] at h2
                convert h2 using 2
                push_cast
                ring
          · rintro (⟨h1, h2, h3⟩ | ⟨c', hc', h1, h2⟩ | ⟨h1, h2⟩)
            · by_cases hda : d = a
              · subst hda
                rw [h3] at hra
                exact absurd hra (by simp)
              · exact Or.inl ⟨by omega, by push_cast at *; omega, h3⟩
            · simp at hc'
            · rw [if_neg (Nat.succ_ne_zero n)] at h2
              by_cases hn : n = 0
              · subst hn
                have hra2 : retro a = true := by
                  convert h2 using 2
                  push_cast
                  ring
                rw [hra] at hra2
                exact absurd hra2 (by simp)
              · refine Or.inr (Or.inr ⟨by push_cast at *; omega, ?_⟩)
                rw [if_neg hn]
                convert h2 using 2
                push_cast
                ring

theorem coversDay_perm_iff {ps qs : List RetroPeriod} {d : ℤ}
    (h : ps.Perm qs) :
    (coversDay ps d = true) ↔ (coversDay qs d = true) := by
  simp only [coversDay, List.any_eq_true]
  constructor
  · rintro ⟨p, hp, hc⟩
    exact ⟨p, h.mem_iff.mp hp, hc⟩
  · rintro ⟨p, hp, hc⟩
    exact ⟨p, h.mem_iff.mpr hp, hc⟩

theorem walk_bounds (planet : String) (pre fd : ℤ) (retro : ℤ → Bool) :
    ∀ (n : ℕ) (a : ℤ) (prev : Bool) (cur : Option ℤ),
    (prev = true ↔ cur.isSome) →
    ∀ p ∈ retroWalk planet pre fd prev cur (pairsFrom retro a n),
      ((∃ c, cur = some c ∧ p.start = c) ∨
        (a ≤ p.start ∧ p.start < a + n)) ∧
      (∀ v, p.end? = some v → a - 1 ≤ v ∧ v < a + n) := by
  intro n
  induction n with
  | zero =>
    intro a prev cur hstate p hp
    simp only [pairsFrom, retroWalk] at hp
    cases hprev : prev with
    | true =>
      obtain ⟨c, hcur⟩ := cur_some_of_prev_true hstate hprev
      subst hcur
      rw [hprev] at hp
      rw [if_pos rfl] at hp
      rw [List.mem_singleton] at hp
      subst hp
      refine ⟨Or.inl ⟨c, rfl, rfl⟩, ?_⟩
      intro v hv
      simp at hv
    | false =>
      have hcur := cur_none_of_prev_false hstate hprev
      subst hcur
      rw [hprev] at hp
      rw [if_neg (by simp)] at hp
      simp at hp
  | succ n IH =>
    intro a prev cur hstate p hp
    simp only [pairsFrom, retroWalk] at hp
    by_cases hb1 : prev = false ∧ retro a = true
    · rw [if_pos hb1] at hp
      have h := IH (a + 1) (retro a) (some a) (by simp [hb1.2]) p hp
      refine ⟨?_, ?_⟩
      · rcases h.1 with ⟨c', hc', hs⟩ | ⟨h1, h2⟩
        · injection hc' with hc'
          subst hc'
          exact Or.inr ⟨le_of_eq hs.symm, by push_cast; omega⟩
        · exact Or.inr ⟨by omega, by push_cast at *; omega⟩
      · intro v hv
        have := h.2 v hv
        constructor <;> push_cast at * <;> omega
    · rw [if_neg hb1] at hp
      by_cases hb2 : prev = true ∧ retro a = false
      · rw [if_pos hb2] at hp
        obtain ⟨c, hcur⟩ := cur_some_of_prev_true hstate hb2.1
        subst hcur
        rw [Option.getD_some] at hp
        rw [List.mem_cons] at hp
        rcases hp with hp | hp
        · subst hp
          refine ⟨Or.inl ⟨c, rfl, rfl⟩, ?_⟩
          intro v hv
          simp only [Option.some.injEq] at hv
          subst hv
          constructor <;> push_cast <;> omega
        · have h := IH (a + 1) (retro a) none (by simp [hb2.2]) p hp
          refine ⟨?_, ?_⟩
          · rcases h.1 with ⟨c', hc', _⟩ | ⟨h1, h2⟩
            · simp at hc'
            · exact Or.inr ⟨by omega, by push_cast at *; omega⟩
          · intro v hv
            have := h.2 v hv
            constructor <;> push_cast at * <;> omega
      · rw [if_neg hb2] at hp
        cases hprev : prev with
        | true =>
          obtain ⟨c, hcur⟩ := cur_some_of_prev_true hstate hprev
          subst hcur
          have hra : retro a = true := by
            cases hretro : retro a with
            | true => rfl
            | false => exact absurd ⟨hprev, hretro⟩ hb2
          have h := IH (a + 1) (retro a) (some c) (by simp [hra]) p hp
          refine ⟨?_, ?_⟩
          · rcases h.1 with ⟨c', hc', hs⟩ | ⟨h1, h2⟩
            · injection hc' with hc'
              subst hc'
              exact Or.inl ⟨c, rfl, hs⟩
            · exact Or.inr ⟨by omega, by push_cast at *; omega⟩
          · intro v hv
            have := h.2 v hv
            constructor <;> push_cast at * <;> omega
        | false =>
          have hcur := cur_none_of_prev_false hstate hprev
          subst hcur
          have hra : retro a = false := by
            cases hretro : retro a with
            | false => rfl
            | true => exact absurd ⟨hprev, hretro⟩ hb1
          have h := IH (a + 1) (retro a) none (by simp [hra]) p hp
          refine ⟨?_, ?_⟩
          · rcases h.1 with ⟨c', hc', _⟩ | ⟨h1, h2⟩
            · simp at hc'
            · exact Or.inr ⟨by omega, by push_cast at *; omega⟩
          · intro v hv
            have := h.2 v hv
            constructor <;> push_cast at * <;> omega

theorem extract_periods_cons (planet : String) (pre d0 : ℤ) (s0 : Bool)
    (rest : List (ℤ × Bool)) (s e : ℤ) :
    extract_periods planet pre ((d0, s0) :: rest) s e =
      ((retroWalk planet pre d0 s0 (if s0 then some d0 else none) rest).filter
        (fun p =>
          !(match p.end? with
            | some v => decide (v < s - 30)
            | none => false) &&
          !(decide (e + 60 < p.start)))).mergeSort
        (fun a b => a.start ≤ b.start) := rfl

/-- Day-coverage of `get_periods` for one planet: a day is covered by
some returned period iff it is a retrograde-sampled day of the padded
analysis window `[s-30, e+60]`, or it lies beyond the analysis window
while the final sampled day is retrograde (the trailing open period). -/
theorem get_periods_cover (planet : String) (pre : ℤ) (retro : ℤ → Bool)
    (s e d : ℤ) (h : s - 30 ≤ e + 60) :
    (coversDay (get_periods_for planet pre retro s e) d = true) ↔
      ((s - 30 ≤ d ∧ d ≤ e + 60 ∧ retro d = true) ∨
       (e + 60 < d ∧ retro (e + 60) = true)) := by
  obtain ⟨n, hn⟩ : ∃ n, (e + 60 + 1 - (s - 30)).toNat = n + 1 :=
    ⟨(e + 60 - (s - 30)).toNat, by omega⟩
  have hnz : (n : ℤ) = e + 60 - (s - 30) := by omega
  have hstate : (retro (s - 30) = true ↔
      (if retro (s - 30) then some (s - 30) else (none : Option ℤ)).isSome) := by
    cases h' : retro (s - 30) <;> simp
  unfold get_periods_for statusRange
  rw [hn]
  simp only [pairsFrom]
  rw [extract_periods_cons]
  rw [coversDay_perm_iff (List.mergeSort_perm _ _)]
  have hall : ∀ p ∈ retroWalk planet pre (s - 30) (retro (s - 30))
      (if retro (s - 30) then some (s - 30) else none)
      (pairsFrom retro (s - 30 + 1) n),
      ((!(match p.end? with
          | some v => decide (v < s - 30)
          | none => false) &&
        !(decide (e + 60 < p.start))) = true) := by
    intro p hp
    have hb := walk_bounds planet pre (s - 30) retro n (s - 30 + 1)
      (retro (s - 30)) _ hstate p hp
    have hstart : p.start ≤ e + 60 := by
      rcases hb.1 with ⟨c, hc, hs⟩ | ⟨h1, h2⟩
      · by_cases hA : retro (s - 30) = true
        · rw [if_pos hA] at hc
          injection hc with hc
          omega
        · rw [if_neg hA] at hc
          simp at hc
      · omega
    have hend : ∀ v, p.end? = some v → s - 30 ≤ v := by
      intro v hv
      have := hb.2 v hv
      omega
    cases hpe : p.end? with
    | none =>
      simp only [hpe, Bool.not_false, Bool.true_and, Bool.not_eq_true',
        decide_eq_false_iff_not]
      omega
    | some v =>
      have hv := hend v hpe
      simp only [hpe, Bool.and_eq_true, Bool.not_eq_true',
        decide_eq_false_iff_not]
      exact ⟨by omega, by omega⟩
  rw [List.filter_eq_self.mpr hall]
  rw [walk_cover planet pre (s - 30) retro n (s - 30 + 1) (retro (s - 30)) _ d
    hstate (by
      intro c hc
      by_cases hA : retro (s - 30) = true
      · rw [if_pos hA] at hc
        injection hc with hc
        omega
      · rw [if_neg hA] at hc
        simp at hc)]
  constructor
  · rintro (⟨h1, h2, h3⟩ | ⟨c, hc', h1, h2⟩ | ⟨h1, h2⟩)
    · exact Or.inl ⟨by omega, by omega, h3⟩
    · by_cases hA : retro (s - 30) = true
      · rw [if_pos hA] at hc'
        injection hc' with hc'
        refine Or.inl ⟨by omega, by omega, ?_⟩
        rw [show d = s - 30 from by omega]
        exact hA
      · rw [if_neg hA] at hc'
        simp at hc'
    · refine Or.inr ⟨by omega, ?_⟩
      by_cases hn0 : n = 0
      · rw [if_pos hn0] at h2
        rw [show e + 60 = s - 30 from by omega]
        exact h2
      · rw [if_neg hn0] at h2
        rw [show e + 60 = s - 30 + 1 + (n : ℤ) - 1 from by omega]
        exact h2
  · rintro (⟨h1, h2, h3⟩ | ⟨h1, h2⟩)
    · by_cases hd : s - 30 + 1 ≤ d
      · exact Or.inl ⟨by omega, by omega, h3⟩
      · have hA : retro (s - 30) = true := by
          rw [show s - 30 = d from by omega]
          exact h3
        refine Or.inr (Or.inl ⟨s - 30, ?_, by omega, by omega⟩)
        rw [if_pos hA]
    · refine Or.inr (Or.inr ⟨by omega, ?_⟩)
      by_cases hn0 : n = 0
      · rw [if_pos hn0]
        rw [show s - 30 = e + 60 from by omega]
        exact h2
      · rw [if_neg hn0]
        rw [show s - 30 + 1 + (n : ℤ) - 1 = e + 60 from by omega]
        exact h2

/-- C3 counterexample: with the retrograde oracle true exactly on day 5
and the query window `[0, 0]`, the extractor's returned periods cover
day 5, which lies outside the query window — refuting the claim that
the union of the returned day-ranges contains no day outside the query
window. -/
theorem c3_counterexample :
    coversDay (get_periods_for "Mercury" 3
      (fun x => decide (x = (5 : ℤ))) 0 0) 5 = true ∧
    ¬((0 : ℤ) ≤ 5 ∧ (5 : ℤ) ≤ 0) := by
  constructor
  · exact (get_periods_cover "Mercury" 3 (fun x => decide (x = (5 : ℤ)))
      0 0 5 (by norm_num)).mpr
      (Or.inl ⟨by norm_num, by norm_num, by norm_num⟩)
  · intro hh
    omega

/-- C3 (amended): for every planet, pre-alert setting, retrograde oracle
and query window `[s, e]` with a non-empty padded analysis window
(`s - 30 ≤ e + 60`), a day lies in the union of the day-ranges of the
returned RetroPeriods iff either it lies in the padded analysis window
`[s-30, e+60]` and its sampled retrograde flag is true, or it lies
beyond the analysis window and the final sampled day `e+60` is
retrograde (the trailing open period extends indefinitely).  Inside the
analysis window there are no gaps, duplicates or off-by-one errors, but
the union is NOT restricted to the query window `[s, e]`. -/
theorem c3_amended (planet : String) (pre : ℤ) (retro : ℤ → Bool)
    (s e d : ℤ) (h : s - 30 ≤ e + 60) :
    (coversDay (get_periods_for planet pre retro s e) d = true) ↔
      ((s - 30 ≤ d ∧ d ≤ e + 60 ∧ retro d = true) ∨
       (e + 60 < d ∧ retro (e + 60) = true)) :=
  get_periods_cover planet pre retro s e d h

theorem c3_witness :
    (0 : ℤ) - 30 ≤ 0 + 60 ∧
    ((coversDay (get_periods_for "Mercury" 3 (fun _ => true) 0 0) 7 = true) ↔
      (((0 : ℤ) - 30 ≤ 7 ∧ (7 : ℤ) ≤ 0 + 60 ∧
          (fun _ => (true : Bool)) (7 : ℤ) = true) ∨
       ((0 : ℤ) + 60 < 7 ∧ (fun _ => (true : Bool)) ((0 : ℤ) + 60) = true))) :=
  ⟨by norm_num, c3_amended "Mercury" 3 (fun _ => true) 0 0 7 (by norm_num)⟩

/-- Transition structure of the series walk: under the loop invariants
(`prev` is the flag of the previous day, `cur` records a recorded start,
which is retrograde and either the first sampled day or preceded by a
non-retrograde day), every emitted period has `pre_alert = start - pre`,
its start is the recorded start or a `false→true` transition day, every
closed end `v` satisfies `retro v ∧ ¬retro (v+1)` (the day before a
`true→false` transition), and an open end forces the final sampled day
to be retrograde. -/
theorem walk_shape (planet : String) (pre fd : ℤ) (retro : ℤ → Bool) :
    ∀ (n : ℕ) (a : ℤ) (prev : Bool) (cur : Option ℤ),
    prev = retro (a - 1) →
    (prev = true ↔ cur.isSome) →
    (∀ c, cur = some c → retro c = true ∧ (c = fd ∨ retro (c - 1) = false)) →
    ∀ p ∈ retroWalk planet pre fd prev cur (pairsFrom retro a n),
      p.pre_alert = p.start - pre ∧
      ((∃ c, cur = some c ∧ p.start = c) ∨
        (a ≤ p.start ∧ retro p.start = true ∧ retro (p.start - 1) = false)) ∧
      (∀ v, p.end? = some v → retro v = true ∧ retro (v + 1) = false) ∧
      (p.end? = none → retro (a + (n : ℤ) - 1) = true) := by
  intro n
  induction n with
  | zero =>
    intro a prev cur Hprev Hstate Hcur p hp
    simp only [pairsFrom, retroWalk] at hp
    cases hprev : prev with
    | true =>
      obtain ⟨c, hcur⟩ := cur_some_of_prev_true Hstate hprev
      subst hcur
      rw [hprev] at hp
      rw [if_pos rfl] at hp
      rw [List.mem_singleton] at hp
      subst hp
      refine ⟨rfl, Or.inl ⟨c, rfl, rfl⟩, ?_, ?_⟩
      · intro v hv
        simp at hv
      · intro _
        rw [hprev] at Hprev
        convert Hprev.symm using 2
        push_cast
        ring
    | false =>
      have hcur := cur_none_of_prev_false Hstate hprev
      subst hcur
      rw [hprev] at hp
      rw [if_neg (by simp)] at hp
      simp at hp
  | succ n IH =>
    intro a prev cur Hprev Hstate Hcur p hp
    simp only [pairsFrom, retroWalk] at hp
    by_cases hb1 : prev = false ∧ retro a = true
    · rw [if_pos hb1] at hp
      have h := IH (a + 1) (retro a) (some a)
        (by rw [show a + 1 - 1 = a from by ring])
        (by simp [hb1.2])
        (by
          intro c hc
          injection hc with hc
          subst hc
          refine ⟨hb1.2, Or.inr ?_⟩
          rw [← Hprev]
          exact hb1.1)
        p hp
      refine ⟨h.1, ?_, h.2.2.1, ?_⟩
      · rcases h.2.1 with ⟨c, hc, hs⟩ | ⟨h1, h2, h3⟩
        · injection hc with hc
          subst hc
          refine Or.inr ⟨le_of_eq hs.symm, ?_, ?_⟩
          · rw [hs]
            exact hb1.2
          · rw [hs]
            rw [← Hprev]
            exact hb1.1
        · exact Or.inr ⟨by omega, h2, h3⟩
      · intro hnone
        have h4 := h.2.2.2 hnone
        convert h4 using 2
        push_cast
        ring
    · rw [if_neg hb1] at hp
      by_cases hb2 : prev = true ∧ retro a = false
      · rw [if_pos hb2] at hp
        obtain ⟨c, hcur⟩ := cur_some_of_prev_true Hstate hb2.1
        subst hcur
        rw [Option.getD_some] at hp
        rw [List.mem_cons] at hp
        rcases hp with hp | hp
        · subst hp
          refine ⟨rfl, Or.inl ⟨c, rfl, rfl⟩, ?_, ?_⟩
          · intro v hv
            simp only [Option.some.injEq] at hv
            subst hv
            constructor
            · rw [hb2.1] at Hprev
              exact Hprev.symm
            · rw [show a - 1 + 1 = a from by ring]
              exact hb2.2
          · intro hnone
            simp at hnone
        · have h := IH (a + 1) (retro a) none
            (by rw [show a + 1 - 1 = a from by ring])
            (by simp [hb2.2])
            (by intro c' hc'; simp at hc')
            p hp
          refine ⟨h.1, ?_, h.2.2.1, ?_⟩
          · rcases h.2.1 with ⟨c', hc', _⟩ | ⟨h1, h2, h3⟩
            · simp at hc'
            · exact Or.inr ⟨by omega, h2, h3⟩
          · intro hnone
            have h4 := h.2.2.2 hnone
            convert h4 using 2
            push_cast
            ring
      · rw [if_neg hb2] at hp
        cases hprev : prev with
        | true =>
          obtain ⟨c, hcur⟩ := cur_some_of_prev_true Hstate hprev
          subst hcur
          have hra : retro a = true := by
            cases hretro : retro a with
            | true => rfl
            | false => exact absurd ⟨hprev, hretro⟩ hb2
          have h := IH (a + 1) (retro a) (some c)
            (by rw [show a + 1 - 1 = a from by ring])
            (by simp [hra])
            (by
              intro c' hc'
              injection hc' with hc'
              subst hc'
              exact Hcur c rfl)
            p hp
          refine ⟨h.1, ?_, h.2.2.1, ?_⟩
          · rcases h.2.1 with ⟨c', hc', hs⟩ | ⟨h1, h2, h3⟩
            · exact Or.inl ⟨c', hc', hs⟩
            · exact Or.inr ⟨by omega, h2, h3⟩
          · intro hnone
            have h4 := h.2.2.2 hnone
            convert h4 using 2
            push_cast
            ring
        | false =>
          have hcur := cur_none_of_prev_false Hstate hprev
          subst hcur
          have hra : retro a = false := by
            cases hretro : retro a with
            | false => rfl
            | true => exact absurd ⟨hprev, hretro⟩ hb1
          have h := IH (a + 1) (retro a) none
            (by rw [show a + 1 - 1 = a from by ring])
            (by simp [hra])
            (by intro c' hc'; simp at hc')
            p hp
          refine ⟨h.1, ?_, h.2.2.1, ?_⟩
          · rcases h.2.1 with ⟨c', hc', _⟩ | ⟨h1, h2, h3⟩
            · simp at hc'
            · exact Or.inr ⟨by omega, h2, h3⟩
          · intro hnone
            have h4 := h.2.2.2 hnone
            convert h4 using 2
            push_cast
            ring

/-- C7: the retrograde series walk opens a period at each `false→true`
transition (or at the recorded start carried in from the window head),
closes it at the day before each `true→false` transition (each closed
end `v` has `retro v` true and `retro (v+1)` false), and yields an open
period (`end = none`) only when the series is still true at the window
end; every period's `pre_alert` is its start minus the configured lead.
In particular the series `[F,F,T,T,T,F]` over 2024-01-01..06 with the
default lead of 3 days yields exactly one period: start 2024-01-03, end
2024-01-05, pre-alert 2023-12-31. -/
theorem c7 :
    (extract_periods "Mercury" 3
      [(daysFromCivil 2024 1 1, false), (daysFromCivil 2024 1 2, false),
       (daysFromCivil 2024 1 3, true), (daysFromCivil 2024 1 4, true),
       (daysFromCivil 2024 1 5, true), (daysFromCivil 2024 1 6, false)]
      (daysFromCivil 2024 1 1) (daysFromCivil 2024 1 6) =
      [⟨"Mercury", daysFromCivil 2024 1 3, some (daysFromCivil 2024 1 5),
        daysFromCivil 2023 12 31⟩]) ∧
    (∀ (planet : String) (pre : ℤ) (retro : ℤ → Bool) (a0 : ℤ) (n : ℕ),
      ∀ p ∈ retroWalk planet pre a0 (retro a0)
          (if retro a0 then some a0 else none) (pairsFrom retro (a0 + 1) n),
        p.pre_alert = p.start - pre ∧
        retro p.start = true ∧
        (p.start = a0 ∨ retro (p.start - 1) = false) ∧
        (∀ v, p.end? = some v → retro v = true ∧ retro (v + 1) = false) ∧
        (p.end? = none → retro (a0 + (n : ℤ)) = true)) := by
  constructor
  · have e1 : daysFromCivil 2024 1 1 = 19723 := by decide
    have e2 : daysFromCivil 2024 1 2 = 19724 := by decide
    have e3 : daysFromCivil 2024 1 3 = 19725 := by decide
    have e4 : daysFromCivil 2024 1 4 = 19726 := by decide
    have e5 : daysFromCivil 2024 1 5 = 19727 := by decide
    have e6 : daysFromCivil 2024 1 6 = 19728 := by decide
    have e0 : daysFromCivil 2023 12 31 = 19722 := by decide
    rw [e1, e2, e3, e4, e5, e6, e0]
    have hw : (retroWalk "Mercury" 3 19723 false
        (if (false : Bool) then some (19723 : ℤ) else none)
        [((19724 : ℤ), false), (19725, true), (19726, true), (19727, true),
         (19728, false)]) =
        [⟨"Mercury", 19725, some 19727, 19722⟩] := by decide
    have hf : ([(⟨"Mercury", 19725, some 19727, (19722 : ℤ)⟩ :
        RetroPeriod)].filter (fun p =>
        !(match p.end? with
          | some v => decide (v < (19723 : ℤ) - 30)
          | none => false) &&
        !(decide ((19728 : ℤ) + 60 < p.start)))) =
        [⟨"Mercury", 19725, some 19727, 19722⟩] := by decide
    rw [extract_periods_cons, hw, hf]
    exact List.mergeSort_singleton _
  · intro planet pre retro a0 n p hp
    have hstate : (retro a0 = true ↔
        (if retro a0 then some a0 else (none : Option ℤ)).isSome) := by
      cases h' : retro a0 <;> simp
    have hcur : ∀ c, (if retro a0 then some a0 else (none : Option ℤ)) =
        some c → retro c = true ∧ (c = a0 ∨ retro (c - 1) = false) := by
      intro c hc
      by_cases hA : retro a0 = true
      · rw [if_pos hA] at hc
        injection hc with hc
        subst hc
        exact ⟨hA, Or.inl rfl⟩
      · rw [if_neg hA] at hc
        simp at hc
    have h := walk_shape planet pre a0 retro n (a0 + 1) (retro a0) _
      (by rw [show a0 + 1 - 1 = a0 from by ring]) hstate hcur p hp
    refine ⟨h.1, ?_, ?_, h.2.2.1, ?_⟩
    · rcases h.2.1 with ⟨c, hc, hs⟩ | ⟨_, h2, _⟩
      · rw [hs]
        exact (hcur c hc).1
      · exact h2
    · rcases h.2.1 with ⟨c, hc, hs⟩ | ⟨_, _, h3⟩
      · rcases (hcur c hc).2 with h' | h'
        · left
          rw [hs]
          exact h'
        · right
          rw [hs]
          exact h'
      · right
        exact h3
    · intro hnone
      have h4 := h.2.2.2 hnone
      convert h4 using 2
      ring

theorem c7_witness :
    (⟨"Mercury", 0, none, -3⟩ : RetroPeriod).pre_alert =
      (⟨"Mercury", 0, none, -3⟩ : RetroPeriod).start - 3 := by
  have h := c7.2 "Mercury" 3 (fun _ => true) 0 0
    (⟨"Mercury", 0, none, -3⟩ : RetroPeriod) (by decide)
  exact h.1

/-- The `i`-th cusp of a cusp list (defaulting to a dummy cusp out of
range). -/
def cuspAt (houses : List HouseCusp) (i : ℕ) : HouseCusp :=
  houses.getD i ⟨0, 0⟩

/-- The containment test `_determine_house` applies at scan position `i`
of the pair list: the non-wrap test against the next cusp for interior
positions, the wrap test against the first longitude at the last
position. -/
def scanCond (x first : ℚ) (ps : List (ℤ × ℚ)) (i : ℕ) : Prop :=
  if i + 1 < ps.length then
    (if (ps.getD i (0, 0)).2 ≤ (ps.getD (i + 1) (0, 0)).2
     then (ps.getD i (0, 0)).2 ≤ x ∧ x < (ps.getD (i + 1) (0, 0)).2
     else (ps.getD i (0, 0)).2 ≤ x ∨ x < (ps.getD (i + 1) (0, 0)).2)
  else ((ps.getD i (0, 0)).2 ≤ x ∨ x < first)

/-- The `(house, lon % 360)` pair list `_determine_house` scans: the
cusps sorted by house index. -/
def housePairs (houses : List HouseCusp) : List (ℤ × ℚ) :=
  (houses.mergeSort (fun a b => a.house ≤ b.house)).map
    (fun c => (c.house, qmod360 c.lon))

/-- The first longitude of the pair list (`longs[0]`), used by the wrap
test. -/
def houseFirst (houses : List HouseCusp) : ℚ :=
  (((housePairs houses).head?).map Prod.snd).getD 0

theorem determine_house_cons (x : ℚ) (c : HouseCusp) (cs : List HouseCusp) :
    determine_house x (c :: cs) =
      match houseScan x (houseFirst (c :: cs)) (housePairs (c :: cs)) with
      | some h => some h
      | none => (housePairs (c :: cs)).getLast?.map Prod.fst := rfl

theorem getD_map_pair (f : HouseCusp → ℤ × ℚ) :
    ∀ (l : List HouseCusp) (i : ℕ), i < l.length →
      (l.map f).getD i (0, 0) = f (l.getD i ⟨0, 0⟩) := by
  intro l
  induction l with
  | nil =>
    intro i hi
    simp at hi
  | cons c cs IH =>
    intro i hi
    cases i with
    | zero => rfl
    | succ i =>
      simp only [List.map_cons, List.getD_cons_succ]
      exact IH i (by simpa using hi)

theorem scanCond_cons_succ (x first : ℚ) (p : ℤ × ℚ) (ps : List (ℤ × ℚ))
    (i : ℕ) :
    scanCond x first (p :: ps) (i + 1) = scanCond x first ps i := by
  unfold scanCond
  simp only [List.length_cons, List.getD_cons_succ, Nat.add_lt_add_iff_right]

/-- If every scan position before `j` fails its containment test and
position `j` passes it, the scan returns the `j`-th house id. -/
theorem houseScan_spec (x first : ℚ) :
    ∀ (ps : List (ℤ × ℚ)) (j : ℕ), j < ps.length →
      (∀ i, i < j → ¬ scanCond x first ps i) →
      scanCond x first ps j →
      houseScan x first ps = some (ps.getD j (0, 0)).1 := by
  intro ps
  induction ps with
  | nil =>
    intro j hj
    simp at hj
  | cons p ps IH =>
    obtain ⟨pi, pl⟩ := p
    intro j hj hmiss hcond
    cases ps with
    | nil =>
      have hj0 : j = 0 := by
        simp only [List.length_cons, List.length_nil] at hj
        omega
      subst hj0
      unfold scanCond at hcond
      rw [if_neg (by simp)] at hcond
      simp only [List.getD_cons_zero] at hcond
      unfold houseScan
      rw [if_pos hcond]
      rfl
    | cons q ps2 =>
      obtain ⟨qi, ql⟩ := q
      cases j with
      | zero =>
        unfold scanCond at hcond
        rw [if_pos (by simp only [List.length_cons]; omega)] at hcond
        simp only [List.getD_cons_zero, List.getD_cons_succ] at hcond
        unfold houseScan
        rw [if_pos hcond]
        rfl
      | succ j =>
        have hmiss0 := hmiss 0 (Nat.succ_pos j)
        unfold scanCond at hmiss0
        rw [if_pos (by simp only [List.length_cons]; omega)] at hmiss0
        simp only [List.getD_cons_zero, List.getD_cons_succ] at hmiss0
        unfold houseScan
        rw [if_neg hmiss0]
        simp only [List.getD_cons_succ]
        apply IH j (by simp only [List.length_cons] at hj ⊢; omega)
        · intro i hi
          have h := hmiss (i + 1) (by omega)
          rw [scanCond_cons_succ] at h
          exact h
        · have h := hcond
          rw [scanCond_cons_succ] at h
          exact h

/-- A successful scan returns a house id occurring in the pair list. -/
theorem houseScan_some_mem (x first : ℚ) :
    ∀ (ps : List (ℤ × ℚ)) (h : ℤ), houseScan x first ps = some h →
      h ∈ ps.map Prod.fst := by
  intro ps
  induction ps with
  | nil =>
    intro h hh
    simp [houseScan] at hh
  | cons p ps IH =>
    obtain ⟨pi, pl⟩ := p
    intro h hh
    cases ps with
    | nil =>
      unfold houseScan at hh
      by_cases hc : pl ≤ x ∨ x < first
      · rw [if_pos hc] at hh
        injection hh with hh
        subst hh
        simp
      · rw [if_neg hc] at hh
        simp at hh
    | cons q ps2 =>
      obtain ⟨qi, ql⟩ := q
      unfold houseScan at hh
      by_cases hc : (if pl ≤ ql then pl ≤ x ∧ x < ql else pl ≤ x ∨ x < ql)
      · rw [if_pos hc] at hh
        injection hh with hh
        subst hh
        simp
      · rw [if_neg hc] at hh
        have hmem := IH h hh
        simp only [List.map_cons] at hmem ⊢
        exact List.mem_cons_of_mem _ hmem

/-- On a non-empty pair list whose `first` is the head longitude, the
scan always matches some position: a longitude below `first` matches the
wrap test, and otherwise every failed test pushes the longitude at or
above the next cusp, so the last position's wrap test fires. -/
theorem houseScan_isSome (x : ℚ) :
    ∀ (ps : List (ℤ × ℚ)) (first : ℚ), ps ≠ [] →
      (x < first ∨ ∃ p, ps.head? = some p ∧ p.2 ≤ x) →
      (houseScan x first ps).isSome = true := by
  intro ps
  induction ps with
  | nil =>
    intro first h
    exact absurd rfl h
  | cons p ps IH =>
    obtain ⟨pi, pl⟩ := p
    intro first _ hinit
    cases ps with
    | nil =>
      unfold houseScan
      rw [if_pos ?_]
      · simp
      · rcases hinit with h | ⟨q, hq, hle⟩
        · exact Or.inr h
        · injection hq with hq
          subst hq
          exact Or.inl hle
    | cons q ps2 =>
      obtain ⟨qi, ql⟩ := q
      unfold houseScan
      by_cases hc : (if pl ≤ ql then pl ≤ x ∧ x < ql else pl ≤ x ∨ x < ql)
      · rw [if_pos hc]
        simp
      · rw [if_neg hc]
        apply IH first (by simp)
        rcases hinit with h | ⟨r, hr, hle⟩
        · exact Or.inl h
        · right
          refine ⟨(qi, ql), rfl, ?_⟩
          injection hr with hr
          subst hr
          have hpl : pl ≤ x := hle
          by_cases hlm : pl ≤ ql
          · rw [if_pos hlm] at hc
            push_neg at hc
            exact hc hpl
          · rw [if_neg hlm] at hc
            exact absurd (Or.inl hpl) hc

/-- A 12-cusp map (houses 1..12) whose longitudes are NOT a proper
wheel: house 2's cusp (100°) lies beyond house 3's cusp (50°). -/
def cusps12 : List HouseCusp :=
  [⟨1, 0⟩, ⟨2, 100⟩, ⟨3, 50⟩, ⟨4, 120⟩, ⟨5, 150⟩, ⟨6, 180⟩,
   ⟨7, 210⟩, ⟨8, 240⟩, ⟨9, 270⟩, ⟨10, 300⟩, ⟨11, 320⟩, ⟨12, 340⟩]

/-- A proper 12-cusp wheel: strictly ascending longitudes with the
single cyclic descent between house 6 (350°) and house 7 (20°). -/
def wheel12 : List HouseCusp :=
  [⟨1, 200⟩, ⟨2, 230⟩, ⟨3, 260⟩, ⟨4, 290⟩, ⟨5, 320⟩, ⟨6, 350⟩,
   ⟨7, 20⟩, ⟨8, 50⟩, ⟨9, 80⟩, ⟨10, 110⟩, ⟨11, 140⟩, ⟨12, 170⟩]

/-- C9 counterexample: in the (non-monotonic) 12-cusp map `cusps12` the
longitude 50 is exactly house 3's cusp, yet `_determine_house` assigns
it to house 1, whose interval `[0, 100)` is scanned first — refuting the
claim for arbitrary non-empty 12-cusp maps. -/
theorem c9_counterexample :
    cusps12.length = 12 ∧ (⟨3, 50⟩ : HouseCusp) ∈ cusps12 ∧
    determine_house 50 cusps12 = some 1 ∧
    determine_house 50 cusps12 ≠ some 3 := by
  have hms : cusps12.mergeSort (fun a b => a.house ≤ b.house) = cusps12 :=
    List.mergeSort_of_sorted (by decide)
  have hpairs : housePairs cusps12 = cusps12.map (fun c => (c.house, c.lon)) := by
    unfold housePairs
    rw [hms]
    refine List.map_congr_left ?_
    intro c hc
    fin_cases hc <;> rw [qmod360_eq_self (by norm_num) (by norm_num)]
  have hfirst : houseFirst cusps12 = 0 := by
    unfold houseFirst
    rw [hpairs]
    rfl
  have heq : determine_house 50 cusps12 = some 1 := by
    rw [show determine_house 50 cusps12 =
        (match houseScan 50 (houseFirst cusps12) (housePairs cusps12) with
         | some h => some h
         | none => (housePairs cusps12).getLast?.map Prod.fst) from rfl]
    rw [hfirst, hpairs]
    decide
  refine ⟨rfl, by decide, heq, ?_⟩
  rw [heq]
  simp

/-- C9 (amended): the house locator returns `none` exactly on the empty
cusp map; and for every cusp map sorted strictly by house index, with
longitudes in `[0, 360)` forming a proper wheel — strictly ascending
except for at most one cyclic descent at position `k` (when `k` is not
the last position, the last longitude wraps back below the first) — a
longitude exactly equal to the `j`-th cusp's longitude is assigned to
the house starting at that cusp, not to a preceding house. -/
theorem c9_amended :
    (∀ x : ℚ, determine_house x [] = none) ∧
    (∀ (houses : List HouseCusp) (k j : ℕ),
      k < houses.length → j < houses.length →
      houses.Pairwise (fun a b => a.house < b.house) →
      (∀ c ∈ houses, 0 ≤ c.lon ∧ c.lon < 360) →
      (∀ i, i < houses.length - 1 → i ≠ k →
        (cuspAt houses i).lon < (cuspAt houses (i + 1)).lon) →
      (k + 1 < houses.length →
        (cuspAt houses (houses.length - 1)).lon < (cuspAt houses 0).lon) →
      determine_house (cuspAt houses j).lon houses =
        some (cuspAt houses j).house) := by
  refine ⟨fun x => rfl, ?_⟩
  intro houses k j hk hj hsorted hlon hasc hwrap
  cases houses with
  | nil => exact absurd hj (by simp)
  | cons c0 cs =>
  have hms : (c0 :: cs).mergeSort (fun a b => a.house ≤ b.house) = c0 :: cs := by
    apply List.mergeSort_of_sorted
    exact hsorted.imp (fun h => by simp only [decide_eq_true_eq]; exact le_of_lt h)
  have hpairs : housePairs (c0 :: cs) = (c0 :: cs).map (fun c => (c.house, c.lon)) := by
    unfold housePairs
    rw [hms]
    exact List.map_congr_left (fun c hc => by
      rw [qmod360_eq_self (hlon c hc).1 (hlon c hc).2])
  have hplen : (housePairs (c0 :: cs)).length = (c0 :: cs).length := by
    rw [hpairs, List.length_map]
  have hget2 : ∀ i, i < (c0 :: cs).length →
      ((housePairs (c0 :: cs)).getD i (0, 0)).2 = (cuspAt (c0 :: cs) i).lon := by
    intro i hi
    rw [hpairs, getD_map_pair _ _ i hi]
    rfl
  have hget1 : ∀ i, i < (c0 :: cs).length →
      ((housePairs (c0 :: cs)).getD i (0, 0)).1 = (cuspAt (c0 :: cs) i).house := by
    intro i hi
    rw [hpairs, getD_map_pair _ _ i hi]
    rfl
  have chainle : ∀ (d a : ℕ), a + d < (c0 :: cs).length →
      (∀ t, a ≤ t → t < a + d → t ≠ k) →
      (cuspAt (c0 :: cs) a).lon ≤ (cuspAt (c0 :: cs) (a + d)).lon := by
    intro d
    induction d with
    | zero =>
      intro a _ _
      exact le_refl _
    | succ d IH =>
      intro a ha hne
      have h1 := IH a (by omega) (fun t ht1 ht2 => hne t ht1 (by omega))
      have h2 : (cuspAt (c0 :: cs) (a + d)).lon <
          (cuspAt (c0 :: cs) (a + d + 1)).lon := by
        apply hasc
        · omega
        · exact hne (a + d) (by omega) (by omega)
      exact le_trans h1 (le_of_lt h2)
  have chain : ∀ (a b : ℕ), a ≤ b → b < (c0 :: cs).length →
      (∀ t, a ≤ t → t < b → t ≠ k) →
      (cuspAt (c0 :: cs) a).lon ≤ (cuspAt (c0 :: cs) b).lon := by
    intro a b hab hb hne
    have h := chainle (b - a) a (by omega) (fun t ht1 ht2 => hne t ht1 (by omega))
    rw [show a + (b - a) = b from by omega] at h
    exact h
  have hcondj : scanCond (cuspAt (c0 :: cs) j).lon (houseFirst (c0 :: cs))
      (housePairs (c0 :: cs)) j := by
    unfold scanCond
    rw [hplen]
    by_cases hjn : j + 1 < (c0 :: cs).length
    · rw [if_pos hjn]
      rw [hget2 j hj, hget2 (j + 1) hjn]
      by_cases hjk : j = k
      · subst hjk
        have hw := hwrap hjn
        have h1 : (cuspAt (c0 :: cs) (j + 1)).lon ≤
            (cuspAt (c0 :: cs) ((c0 :: cs).length - 1)).lon :=
          chain (j + 1) ((c0 :: cs).length - 1) (by omega) (by omega)
            (fun t ht1 ht2 => by omega)
        have h2 : (cuspAt (c0 :: cs) 0).lon ≤ (cuspAt (c0 :: cs) j).lon :=
          chain 0 j (by omega) (by omega) (fun t ht1 ht2 => by omega)
        rw [if_neg (not_le.mpr (by linarith))]
        exact Or.inl le_rfl
      · have ha := hasc j (by omega) hjk
        rw [if_pos (le_of_lt ha)]
        exact ⟨le_rfl, ha⟩
    · rw [if_neg hjn]
      rw [hget2 j hj]
      exact Or.inl le_rfl
  have hmiss : ∀ i, i < j →
      ¬ scanCond (cuspAt (c0 :: cs) j).lon (houseFirst (c0 :: cs))
        (housePairs (c0 :: cs)) i := by
    intro i hij
    unfold scanCond
    rw [hplen]
    rw [if_pos (by omega)]
    rw [hget2 i (by omega), hget2 (i + 1) (by omega)]
    rcases Nat.lt_or_ge k j with hkj | hjk
    · have hkn : k + 1 < (c0 :: cs).length := by omega
      have hw := hwrap hkn
      have hx1 : (cuspAt (c0 :: cs) (k + 1)).lon ≤ (cuspAt (c0 :: cs) j).lon :=
        chain (k + 1) j (by omega) hj (fun t ht1 ht2 => by omega)
      have hx2 : (cuspAt (c0 :: cs) j).lon ≤
          (cuspAt (c0 :: cs) ((c0 :: cs).length - 1)).lon :=
        chain j ((c0 :: cs).length - 1) (by omega) (by omega)
          (fun t ht1 ht2 => by omega)
      have h0k : (cuspAt (c0 :: cs) 0).lon ≤ (cuspAt (c0 :: cs) k).lon :=
        chain 0 k (by omega) (by omega) (fun t ht1 ht2 => by omega)
      rcases Nat.lt_trichotomy i k with hik | hik | hik
      · have ha := hasc i (by omega) (by omega)
        have h0i : (cuspAt (c0 :: cs) 0).lon ≤ (cuspAt (c0 :: cs) i).lon :=
          chain 0 i (by omega) (by omega) (fun t ht1 ht2 => by omega)
        rw [if_pos (le_of_lt ha)]
        rintro ⟨h1, h2⟩
        linarith
      · subst hik
        rw [if_neg (not_le.mpr (by linarith))]
        rintro (h1 | h2)
        · linarith
        · linarith
      · have ha := hasc i (by omega) (by omega)
        have hi1 : (cuspAt (c0 :: cs) (i + 1)).lon ≤ (cuspAt (c0 :: cs) j).lon :=
          chain (i + 1) j (by omega) hj (fun t ht1 ht2 => by omega)
        rw [if_pos (le_of_lt ha)]
        rintro ⟨h1, h2⟩
        linarith
    · have ha := hasc i (by omega) (by omega)
      have hi1 : (cuspAt (c0 :: cs) (i + 1)).lon ≤ (cuspAt (c0 :: cs) j).lon :=
        chain (i + 1) j (by omega) hj (fun t ht1 ht2 => by omega)
      rw [if_pos (le_of_lt ha)]
      rintro ⟨h1, h2⟩
      linarith
  have hscan := houseScan_spec (cuspAt (c0 :: cs) j).lon (houseFirst (c0 :: cs))
    (housePairs (c0 :: cs)) j (by rw [hplen]; exact hj) hmiss hcondj
  rw [determine_house_cons, hscan]
  show some ((housePairs (c0 :: cs)).getD j (0, 0)).1 = _
  rw [hget1 j hj]

theorem c9_witness :
    determine_house (cuspAt wheel12 8).lon wheel12 =
      some (cuspAt wheel12 8).house := by
  apply c9_amended.2 wheel12 5 8
  · decide
  · decide
  · decide
  · decide
  · decide
  · decide

/-- C10: for every longitude and every non-empty cusp map — including
non-monotonic cusp sets — the scan inside `_determine_house` always
matches some position (the wrap test catches longitudes below the first
cusp, and a longitude at or above the first cusp that fails every
interior test is at or above the last cusp, so the last wrap test
fires); hence the locator returns some house index present in the map,
never `none`.  The `ids[-1]` fallback for a failed scan is therefore
unreachable on non-empty maps. -/
theorem c10 (x : ℚ) (c0 : HouseCusp) (cs : List HouseCusp) :
    (houseScan x (houseFirst (c0 :: cs)) (housePairs (c0 :: cs))).isSome = true ∧
    ∃ h, determine_house x (c0 :: cs) = some h ∧
      h ∈ (c0 :: cs).map (fun d => d.house) := by
  have hlen : (housePairs (c0 :: cs)).length = cs.length + 1 := by
    unfold housePairs
    rw [List.length_map, (List.mergeSort_perm _ _).length_eq]
    simp
  have hne : housePairs (c0 :: cs) ≠ [] := by
    intro h
    rw [h] at hlen
    simp at hlen
  obtain ⟨p0, ps, hps⟩ : ∃ p0 ps, housePairs (c0 :: cs) = p0 :: ps := by
    cases hp : housePairs (c0 :: cs) with
    | nil => exact absurd hp hne
    | cons a l => exact ⟨a, l, rfl⟩
  have hfirst : houseFirst (c0 :: cs) = p0.2 := by
    unfold houseFirst
    rw [hps]
    rfl
  have hsome : (houseScan x (houseFirst (c0 :: cs))
      (housePairs (c0 :: cs))).isSome = true := by
    apply houseScan_isSome x (housePairs (c0 :: cs)) (houseFirst (c0 :: cs)) hne
    by_cases hx : x < houseFirst (c0 :: cs)
    · exact Or.inl hx
    · right
      refine ⟨p0, by rw [hps]; rfl, ?_⟩
      rw [← hfirst]
      exact le_of_not_lt hx
  refine ⟨hsome, ?_⟩
  obtain ⟨h, hh⟩ := Option.isSome_iff_exists.mp hsome
  refine ⟨h, ?_, ?_⟩
  · rw [determine_house_cons, hh]
  · have hmem := houseScan_some_mem x (houseFirst (c0 :: cs))
      (housePairs (c0 :: cs)) h hh
    unfold housePairs at hmem
    rw [List.map_map, List.mem_map] at hmem
    obtain ⟨d, hd, hdh⟩ := hmem
    rw [List.mem_map]
    exact ⟨d, (List.mem_mergeSort).mp hd, hdh⟩

end Ezo
